import Mathlib

/-!
Verification development for the version ledger and reference synchronizer of
the `openapi2md` repository.

The embedding translates `src/core/version-manager.ts` (class `VersionManager`),
`src/project-ref-updater.ts` (class `ProjectRefUpdater` and its two update
strategies) and the `Storage` collaborator (`src/io/storage.ts`) into Lean.

Modelling conventions, stated once here:
* File contents are modelled by the inductive `FileData`: `jsonFile doc` stands
  for a file whose text is a JSON object carrying the fields the program ever
  reads (`version` as a string, `history` as an array of entry objects), and
  `textFile s` stands for file text that is not a JSON object (README prose,
  bare version strings, malformed JSON).  `JSON.parse` succeeds exactly on
  `jsonFile`.
* JavaScript numbers are modelled as `Nat`.  All version components that the
  claims exercise are far below 2^53, where `Number` arithmetic on decimal
  digit strings is exact.
* `new Date().toISOString()` is modelled by an explicit `now : String`
  parameter; the claims never depend on its value.
* `console.log` / `console.warn` output is not modelled.
* The file system (node `fs` and the `FileSystemStorage` implementation of the
  `Storage` interface, which delegates to `fs`) is one association list from
  path strings to `FileData`.  Each operation returns its result, the new file
  system, and the list of write events it issued, in order.
-/

namespace O2M

/-- A parsed semantic version: the `(major, minor, patch)` triple. -/
structure SemVer where
  major : Nat
  minor : Nat
  patch : Nat
deriving DecidableEq, Repr

/-- Decimal digit character for `d < 10` (code point `48 + d`). -/
def digitChar (d : Nat) : Char := Char.ofNat (48 + d)

/-- Decimal digits, by structural recursion on a fuel bound (so that the
kernel can evaluate it); the fuel `n + 1` always suffices. -/
def natCharsAux : Nat → Nat → List Char
  | 0, _ => []
  | fuel + 1, n =>
    if n < 10 then [digitChar n]
    else natCharsAux fuel (n / 10) ++ [digitChar (n % 10)]

/-- Decimal digits of a natural number, most significant first.  Models the
rendering of a JavaScript number inside a template string such as
`` `${major}.${minor}.${patch}` ``. -/
def natChars (n : Nat) : List Char := natCharsAux (n + 1) n

/-- Numeric value of a decimal digit character. -/
def digitVal (c : Char) : Nat := c.toNat - 48

/-- Value of a list of decimal digit characters (`Number` on a digit string). -/
def charsToNat (l : List Char) : Nat := l.foldl (fun a c => a * 10 + digitVal c) 0

/-- `l` is a non-empty list of decimal digits, i.e. matches `\d+`. -/
def isDigitList (l : List Char) : Bool := !l.isEmpty && l.all Char.isDigit

/-- Split a character list at every occurrence of `sep`; models
`String.prototype.split` with a single-character separator. -/
def splitOnChar (sep : Char) : List Char → List (List Char)
  | [] => [[]]
  | c :: rest =>
    if c = sep then [] :: splitOnChar sep rest
    else
      match splitOnChar sep rest with
      | g :: gs => (c :: g) :: gs
      | [] => [[c]]

/-- `VersionManager.ensureSemanticVersion`, the parsing half: the string must
match `^(\d+)\.(\d+)\.(\d+)$` and each captured group goes through `Number`.
`none` models the thrown `Invalid semantic version` error. -/
def parseSemVer (s : String) : Option SemVer :=
  match splitOnChar '.' s.data with
  | [a, b, c] =>
    if isDigitList a && isDigitList b && isDigitList c then
      some ⟨charsToNat a, charsToNat b, charsToNat c⟩
    else none
  | _ => none

/-- The canonical text form `` `${major}.${minor}.${patch}` `` returned by
`ensureSemanticVersion`; also the form in which versions are persisted. -/
def SemVer.render (v : SemVer) : String :=
  String.mk (natChars v.major ++ '.' :: natChars v.minor ++ '.' :: natChars v.patch)

/-- `VersionManager.compareVersions`: sign of the triple comparison, major
first, then minor, then patch.  The source splits the two (already validated
and normalized) strings and compares the numeric components; the embedding
works on the parsed triples directly. -/
def compareVersions (v1 v2 : SemVer) : Int :=
  if v1.major ≠ v2.major then (if v1.major > v2.major then 1 else -1)
  else if v1.minor ≠ v2.minor then (if v1.minor > v2.minor then 1 else -1)
  else if v1.patch ≠ v2.patch then (if v1.patch > v2.patch then 1 else -1)
  else 0

/-- `VersionManager.isVersionGreaterOrEqual`. -/
def isVersionGreaterOrEqual (v1 v2 : SemVer) : Bool := compareVersions v1 v2 ≥ 0

/-! ## The `semver` npm library, as used by `ProjectRefUpdater`

`detectAndUpdateVersion` calls `semver.valid` and `semver.lt` (non-loose mode).
The library's `FULL` regular expression accepts an optional leading `v`, three
numeric components without leading zeros and each at most
`Number.MAX_SAFE_INTEGER`, an optional dash-prefixed prerelease (dot-separated
identifiers, numeric ones without leading zeros), and an optional
plus-prefixed build (dot-separated alphanumeric/hyphen identifiers), with the
whole string at most 256 characters.  Numeric prerelease identifiers are
modelled as exact `Nat` (the library falls back to string comparison above
2^53, a range no claim exercises). -/

/-- One prerelease identifier: numeric or alphanumeric. -/
inductive PreId where
  | num (n : Nat)
  | alpha (s : String)
deriving DecidableEq, Repr

/-- A version as parsed by the `semver` library (build metadata is dropped: it
never influences validity beyond its grammar, nor precedence). -/
structure SvVersion where
  major : Nat
  minor : Nat
  patch : Nat
  pre : List PreId
deriving DecidableEq, Repr

/-- `[0-9A-Za-z-]`. -/
def isIdentCh (c : Char) : Bool := c.isAlphanum || c = '-'

/-- `0|[1-9]\d*` — a numeric identifier with no leading zero. -/
def isNumericId (l : List Char) : Bool :=
  isDigitList l && (decide (l = ['0']) || decide (l.head? ≠ some '0'))

/-- `Number.MAX_SAFE_INTEGER`. -/
def jsMaxSafeInt : Nat := 2 ^ 53 - 1

/-- A main version component: numeric identifier bounded by
`MAX_SAFE_INTEGER` (the `SemVer` constructor rejects larger ones). -/
def parseMainComponent (l : List Char) : Option Nat :=
  if isNumericId l then
    if charsToNat l ≤ jsMaxSafeInt then some (charsToNat l) else none
  else none

/-- One prerelease identifier: `0|[1-9]\d*|\d*[a-zA-Z-][a-zA-Z0-9-]*`. -/
def parsePreId (l : List Char) : Option PreId :=
  if l.isEmpty then none
  else if l.all Char.isDigit then
    if isNumericId l then some (.num (charsToNat l)) else none
  else if l.all isIdentCh then some (.alpha (String.mk l)) else none

/-- The build suffix: dot-separated, non-empty `[0-9A-Za-z-]+` identifiers. -/
def validBuild (l : List Char) : Bool :=
  (splitOnChar '.' l).all fun id => !id.isEmpty && id.all isIdentCh

/-- Join character lists with a separator character (for re-assembling a
prerelease that itself contains hyphens). -/
def joinChar (sep : Char) : List (List Char) → List Char
  | [] => []
  | [g] => g
  | g :: gs => g ++ sep :: joinChar sep gs

/-- Main version plus optional prerelease (the part before any `+`).  The
prerelease starts at the first hyphen. -/
def parseCore (core : List Char) : Option SvVersion :=
  match splitOnChar '-' core with
  | [] => none
  | main :: rest =>
    match splitOnChar '.' main with
    | [a, b, c] =>
      match parseMainComponent a, parseMainComponent b, parseMainComponent c with
      | some ma, some mi, some pa =>
        match rest with
        | [] => some ⟨ma, mi, pa, []⟩
        | _ :: _ =>
          match (splitOnChar '.' (joinChar '-' rest)).mapM parsePreId with
          | some pre => some ⟨ma, mi, pa, pre⟩
          | none => none
      | _, _, _ => none
    | _ => none

/-- `semver.parse` in non-loose mode: `none` models `null`. -/
def semverParse (s : String) : Option SvVersion :=
  if s.length > 256 then none
  else
    let l := if s.data.head? = some 'v' then s.data.tail else s.data
    match splitOnChar '+' l with
    | [core] => parseCore core
    | [core, build] => if validBuild build then parseCore core else none
    | _ => none

/-- Truthiness of `semver.valid`. -/
def semverValid (s : String) : Bool := (semverParse s).isSome

/-- Sign comparison of two naturals. -/
def compareNat (a b : Nat) : Int := if a < b then -1 else if a = b then 0 else 1

/-- JavaScript `<` on strings: lexicographic by code unit. -/
def compareStrLex : List Char → List Char → Int
  | [], [] => 0
  | [], _ :: _ => -1
  | _ :: _, [] => 1
  | a :: as, b :: bs =>
    if a.toNat < b.toNat then -1
    else if b.toNat < a.toNat then 1
    else compareStrLex as bs

/-- `compareIdentifiers` from the `semver` library: numeric identifiers are
compared numerically, any numeric identifier is below any alphanumeric one,
alphanumeric identifiers compare as JavaScript strings. -/
def compareIdentifiers : PreId → PreId → Int
  | .num a, .num b => compareNat a b
  | .num _, .alpha _ => -1
  | .alpha _, .num _ => 1
  | .alpha a, .alpha b => compareStrLex a.data b.data

/-- Elementwise prerelease comparison once both lists are known non-empty:
running out first means smaller. -/
def comparePreTail : List PreId → List PreId → Int
  | [], [] => 0
  | [], _ :: _ => -1
  | _ :: _, [] => 1
  | a :: as, b :: bs =>
    if compareIdentifiers a b = 0 then comparePreTail as bs else compareIdentifiers a b

/-- `comparePre`: a version without prerelease is above any with one. -/
def comparePre : List PreId → List PreId → Int
  | [], [] => 0
  | [], _ :: _ => 1
  | _ :: _, [] => -1
  | a :: as, b :: bs => comparePreTail (a :: as) (b :: bs)

/-- `semver.compare` on parsed versions: main triple, then prerelease. -/
def svCompare (x y : SvVersion) : Int :=
  if compareNat x.major y.major ≠ 0 then compareNat x.major y.major
  else if compareNat x.minor y.minor ≠ 0 then compareNat x.minor y.minor
  else if compareNat x.patch y.patch ≠ 0 then compareNat x.patch y.patch
  else comparePre x.pre y.pre

/-- `semver.lt` on version strings.  Both call sites guard it behind
`semver.valid`, so the `none` fallback is never reached there. -/
def svLtStr (a b : String) : Bool :=
  match semverParse a, semverParse b with
  | some x, some y => svCompare x y < 0
  | _, _ => false

/-! ## The free-text pattern of `ReadmeUpdateStrategy`

The pattern is `/(?:version\s*[:=]\s*|v)(\d+\.\d+\.\d+)/i`, matched first
(leftmost) occurrence only, as by `String.prototype.match` and a
non-global `String.prototype.replace`.  The character classes `\d` and `[:=]`
are disjoint from `\s`, and `\d` is disjoint from `.`, so the greedy
quantifiers never backtrack: each `\d+` is a maximal digit run and each `\s*`
a maximal whitespace run.  The embedding matches exactly that way. -/

/-- The JavaScript `\s` class (ECMAScript WhiteSpace plus LineTerminator). -/
def jsSpace (c : Char) : Bool :=
  c = ' ' || c = '\t' || c = '\n' || c.toNat = 11 || c.toNat = 12 || c = '\r' ||
  c.toNat = 0xa0 || c.toNat = 0x1680 || (0x2000 ≤ c.toNat && c.toNat ≤ 0x200a) ||
  c.toNat = 0x2028 || c.toNat = 0x2029 || c.toNat = 0x202f || c.toNat = 0x205f ||
  c.toNat = 0x3000 || c.toNat = 0xfeff

/-- ASCII lowering, for the `i` flag. -/
def lowerAscii (c : Char) : Char :=
  if 65 ≤ c.toNat && c.toNat ≤ 90 then Char.ofNat (c.toNat + 32) else c

/-- Match `(\d+\.\d+\.\d+)` at the head of `l`: returns the captured
characters and the remainder. -/
def matchCore (l : List Char) : Option (List Char × List Char) :=
  let d1 := l.takeWhile Char.isDigit
  let r1 := l.dropWhile Char.isDigit
  if d1.isEmpty then none
  else
    match r1 with
    | '.' :: r2 =>
      let d2 := r2.takeWhile Char.isDigit
      let r3 := r2.dropWhile Char.isDigit
      if d2.isEmpty then none
      else
        match r3 with
        | '.' :: r4 =>
          let d3 := r4.takeWhile Char.isDigit
          let r5 := r4.dropWhile Char.isDigit
          if d3.isEmpty then none
          else some (d1 ++ '.' :: d2 ++ '.' :: d3, r5)
        | _ => none
    | _ => none

/-- Match the marker alternative `version\s*[:=]\s*` (case-insensitive) at the
head of `l`: returns the marker characters and the remainder. -/
def matchMarker (l : List Char) : Option (List Char × List Char) :=
  let w := l.take 7
  if w.map lowerAscii = "version".data then
    let r0 := l.drop 7
    let s1 := r0.takeWhile jsSpace
    match r0.dropWhile jsSpace with
    | c :: r1 =>
      if c = ':' || c = '=' then
        let s2 := r1.takeWhile jsSpace
        some (w ++ s1 ++ c :: s2, r1.dropWhile jsSpace)
      else none
    | [] => none
  else none

/-- Try the whole pattern at the head of `l`: returns
`(marker part, captured version, remainder)`.  The regex alternation tries the
`version…` marker first, then the bare `v`. -/
def matchVersionAt (l : List Char) : Option (List Char × List Char × List Char) :=
  match matchMarker l with
  | some (m, r) =>
    match matchCore r with
    | some (cap, rest) => some (m, cap, rest)
    | none =>
      match l with
      | c :: r' =>
        if lowerAscii c = 'v' then
          match matchCore r' with
          | some (cap, rest) => some ([c], cap, rest)
          | none => none
        else none
      | [] => none
  | none =>
    match l with
    | c :: r' =>
      if lowerAscii c = 'v' then
        match matchCore r' with
        | some (cap, rest) => some ([c], cap, rest)
        | none => none
      else none
    | [] => none

/-- Leftmost match of the pattern: returns
`(text before the match, marker part, captured version, text after)`.
The whole matched span is `marker ++ capture`. -/
def findMatch : List Char → Option (List Char × List Char × List Char × List Char)
  | [] => none
  | c :: rest =>
    match matchVersionAt (c :: rest) with
    | some (m, cap, aft) => some ([], m, cap, aft)
    | none =>
      match findMatch rest with
      | some (b, m, cap, aft) => some (c :: b, m, cap, aft)
      | none => none

/-- `ReadmeUpdateStrategy.detectVersion`: group 1 of the first match. -/
def readmeDetect (s : String) : Option String :=
  (findMatch s.data).map fun r => String.mk r.2.2.1

/-- `ReadmeUpdateStrategy.replaceVersion`:
`content.replace(pattern, $1 + newVersion)` — the whole matched span
(marker included) is replaced by the captured old version concatenated with
the new version text. -/
def readmeReplace (s : String) (newVersion : String) : String :=
  match findMatch s.data with
  | some (b, _m, cap, aft) => String.mk (b ++ cap ++ newVersion.data ++ aft)
  | none => s

/-- Modelled from the spec: the intended free-text replacement — "replace the
matched version span with the new version text, verbatim", keeping the
marker.  Stated only to compare against `readmeReplace`. -/
def readmeReplaceSpec (s : String) (newVersion : String) : String :=
  match findMatch s.data with
  | some (b, m, _cap, aft) => String.mk (b ++ m ++ newVersion.data ++ aft)
  | none => s

/-! ## Files, documents and errors -/

/-- One element of a version log's `history` array, as it sits in the JSON
file: `{version, timestamp, notes?}` with a string-valued `version`. -/
structure LogEntry where
  version : String
  timestamp : String
  notes : Option String
deriving DecidableEq, Repr

/-- A JSON object document, carrying exactly the fields the program reads:
a string `version` (package.json) and an entry-array `history` (version log).
`none` means the field is absent (or not of the type the program reads,
which no claim exercises). -/
structure Doc where
  version : Option String
  history : Option (List LogEntry)
deriving DecidableEq, Repr

/-- Content of a file.  `jsonFile doc` is text that `JSON.parse` accepts as an
object; `textFile s` is text that `JSON.parse` rejects (README prose, the bare
version strings written by the package.json strategy, malformed logs). -/
inductive FileData where
  | jsonFile (doc : Doc)
  | textFile (s : String)
deriving DecidableEq, Repr

/-- A crude JSON rendering of a document, used only when a free-text strategy
reads a structured file as raw text (its exact whitespace is immaterial: the
claims never match a version pattern inside serialized JSON). -/
def serializeDoc (d : Doc) : String :=
  "\x7bversion. " ++ (match d.version with | some v => v | none => "-") ++
    " history-length " ++ (match d.history with | some h => toString h.length | none => "-") ++ "\x7d"

/-- The raw text of a file, as `fs.readFile` returns it. -/
def FileData.asText : FileData → String
  | .jsonFile d => serializeDoc d
  | .textFile s => s

/-- Everything the two translated modules throw.  Each constructor carries the
data interpolated into the thrown `Error`'s message. -/
inductive Err where
  /-- `fs.readFile` on a missing file (ENOENT), propagated uncaught. -/
  | ioError (path : String)
  /-- `JSON.parse` threw, uncaught (e.g. `getCurrentVersion` on a mangled manifest). -/
  | jsonParseError
  /-- `Invalid JSON in version log at …` (readLog catches the parse error). -/
  | invalidLogJson (path : String)
  /-- `Invalid version log structure: "history" must be an array.` -/
  | invalidLogStructure
  /-- `Invalid semantic version: "…". Must be x.y.z with numeric values.` -/
  | invalidSemanticVersion (s : String)
  /-- Accessing `.version`/`.match` on a non-string (`undefined`) value. -/
  | typeError
  /-- `Version regression detected. …` (from `ensureCurrentVersionValid` or
  `addCurrentVersion`). -/
  | versionRegression (current latest : String)
  /-- `Version … already logged. No change detected.` -/
  | duplicateVersion (v : String)
  /-- `Historical regression detected at position … in the history. …` -/
  | historicalRegression (pos : Nat) (v prev : String)
  /-- `Invalid semantic version: …` thrown by `detectAndUpdateVersion`. -/
  | invalidSemverInput (s : String)
  /-- `No version references updated. Ensure project files contain a valid
  version to update.` -/
  | noReferencesUpdated
deriving DecidableEq, Repr

/-- `JSON.parse` on file text: succeeds exactly on JSON-object content. -/
def jsonParse : FileData → Except Err Doc
  | .jsonFile d => .ok d
  | .textFile _ => .error .jsonParseError

/-- The file system: an association list from paths to contents.  Both the
`FileSystemStorage` implementation of `Storage` and the direct `fs` calls of
`ProjectRefUpdater` operate on it. -/
abbrev FS := List (String × FileData)

def FS.read : FS → String → Option FileData
  | [], _ => none
  | (q, d) :: rest, p => if q = p then some d else FS.read rest p

def FS.write : FS → String → FileData → FS
  | [], p, d => [(p, d)]
  | (q, e) :: rest, p, d => if q = p then (p, d) :: rest else (q, e) :: FS.write rest p d

/-- A result triple: outcome, final file system, ordered write events. -/
abbrev Out (α : Type) := Except Err α × FS × List (String × FileData)

/-- Equality of `Except` results is decidable, so concrete runs can be checked
by evaluation. -/
instance exceptDecEq {ε α : Type} [DecidableEq ε] [DecidableEq α] :
    DecidableEq (Except ε α) := fun x y =>
  match x, y with
  | .error a, .error b =>
    if h : a = b then .isTrue (by rw [h]) else .isFalse (by intro he; cases he; exact h rfl)
  | .error _, .ok _ => .isFalse (by intro he; cases he)
  | .ok _, .error _ => .isFalse (by intro he; cases he)
  | .ok a, .ok b =>
    if h : a = b then .isTrue (by rw [h]) else .isFalse (by intro he; cases he; exact h rfl)

/-! ## `ProjectRefUpdater` (src/project-ref-updater.ts) -/

/-- A record of one rewritten file. -/
structure FileUpdate where
  filePath : String
  oldVersion : String
  newVersion : String
deriving DecidableEq, Repr

/-- The two update strategies of the fixed registry. -/
inductive Strategy where
  | packageJson
  | readme
deriving DecidableEq, Repr

/-- `detectVersion`.  For `PackageJsonUpdateStrategy`: `JSON.parse(content)`
then `json.version || null` (an empty string is falsy).  For
`ReadmeUpdateStrategy`: first regex match's group 1 or `null`. -/
def Strategy.detect : Strategy → FileData → Except Err (Option String)
  | .packageJson, content =>
    (jsonParse content).map fun doc =>
      match doc.version with
      | some s => if s = "" then none else some s
      | none => none
  | .readme, content => .ok (readmeDetect content.asText)

/-- `replaceVersion`; the returned string is what `detectAndUpdateVersion`
writes back to the file.  `PackageJsonUpdateStrategy` parses the content,
assigns `json.version = newVersion` and returns `json.version` — i.e. the bare
new version string, which as file text is not valid JSON.
`ReadmeUpdateStrategy` returns the whole content after the regex replacement. -/
def Strategy.replace : Strategy → FileData → String → Except Err FileData
  | .packageJson, content, newVersion =>
    (jsonParse content).map fun _ => .textFile newVersion
  | .readme, content, newVersion => .ok (.textFile (readmeReplace content.asText newVersion))

/-- Modelled from the spec: the intended structured-manifest replacement —
"rewrites that field in place, re-serializing the whole document".  Stated
only to compare against `Strategy.replace .packageJson`. -/
def pkgReplaceSpec (content : FileData) (newVersion : String) : Except Err FileData :=
  (jsonParse content).map fun doc => .jsonFile { doc with version := some newVersion }

/-- `join(this.projectRoot, file)`. -/
def pathJoin (root name : String) : String := root ++ "/" ++ name

/-- The body of the per-file task inside `detectAndUpdateVersion`: read the
file (a missing file is a warned skip), detect the embedded version, and if it
is semver-valid and strictly below `newVersion`, rewrite and record a
`FileUpdate`. -/
def updateOneFile (root newVersion name : String) (strat : Strategy) (fs : FS) :
    Out (Option FileUpdate) :=
  match fs.read (pathJoin root name) with
  | none => (.ok none, fs, [])
  | some content =>
    match strat.detect content with
    | .error e => (.error e, fs, [])
    | .ok none => (.ok none, fs, [])
    | .ok (some oldVersion) =>
      if semverValid oldVersion && svLtStr oldVersion newVersion then
        match strat.replace content newVersion with
        | .error e => (.error e, fs, [])
        | .ok updated =>
          (.ok (some ⟨pathJoin root name, oldVersion, newVersion⟩),
            fs.write (pathJoin root name) updated,
            [(pathJoin root name, updated)])
      else (.ok none, fs, [])

/-- `ProjectRefUpdater.detectAndUpdateVersion`.  The registry is
`package.json` then `README.md`.  The source runs the two file tasks
concurrently under `Promise.all`; the two paths are distinct, so the
sequential composition below is observationally the same on every run that
completes normally (on a failing run `Promise.all` may let the other task's
write land, which no claim depends on). -/
def detectAndUpdateVersion (root newVersion : String) (fs : FS) : Out (List FileUpdate) :=
  if semverValid newVersion then
    match updateOneFile root newVersion "package.json" .packageJson fs with
    | (.error e, fs1, w1) => (.error e, fs1, w1)
    | (.ok u1, fs1, w1) =>
      match updateOneFile root newVersion "README.md" .readme fs1 with
      | (.error e, fs2, w2) => (.error e, fs2, w1 ++ w2)
      | (.ok u2, fs2, w2) => (.ok (([u1, u2]).filterMap id), fs2, w1 ++ w2)
  else (.error (.invalidSemverInput newVersion), fs, [])

/-! ## `VersionManager` (src/core/version-manager.ts) -/

/-- The constructor arguments of `VersionManager` (the injected `Storage` is
the shared file system). -/
structure VersionManager where
  packageJsonPath : String
  versionLogPath : String
  projectRoot : String

/-- `ensureSemanticVersion` as an `Except`: parse against
`^(\d+)\.(\d+)\.(\d+)$` or throw.  The source returns the normalized string
`` `${major}.${minor}.${patch}` ``; the embedding returns the parsed triple,
whose `SemVer.render` is that normalized string. -/
def ensureSemanticVersion (version : String) : Except Err SemVer :=
  match parseSemVer version with
  | some v => .ok v
  | none => .error (.invalidSemanticVersion version)

/-- A validated history entry: the entry with its version parsed.  The source
keeps the normalized string in place (`log.history[i].version = validated`);
`VEntry.toLogEntry` is that normalized textual form. -/
structure VEntry where
  version : SemVer
  timestamp : String
  notes : Option String
deriving DecidableEq, Repr

def VEntry.toLogEntry (e : VEntry) : LogEntry := ⟨e.version.render, e.timestamp, e.notes⟩

/-- The loop body of `validateAndRepairLog`, carrying the position `i` and the
previous validated version: validate the entry's version, then reject any
entry below its predecessor, reporting its position. -/
def repairAux : Option SemVer → Nat → List LogEntry → Except Err (List VEntry)
  | _, _, [] => .ok []
  | last, i, e :: rest =>
    match ensureSemanticVersion e.version with
    | .error err => .error err
    | .ok v =>
      match last with
      | some lv =>
        if isVersionGreaterOrEqual v lv then
          (repairAux (some v) (i + 1) rest).map (⟨v, e.timestamp, e.notes⟩ :: ·)
        else .error (.historicalRegression i v.render lv.render)
      | none => (repairAux (some v) (i + 1) rest).map (⟨v, e.timestamp, e.notes⟩ :: ·)

/-- `VersionManager.validateAndRepairLog`: the normalize-and-validate routine
every read path runs.  Validation is strict (an out-of-order entry is a hard
failure); repair only normalizes each entry's version text. -/
def validateAndRepairLog (history : List LogEntry) : Except Err (List VEntry) :=
  repairAux none 0 history

/-- `VersionManager.getCurrentVersion` as a pure read:
`storage.readFile(packageJsonPath)`, `JSON.parse`, field `version`,
`ensureSemanticVersion`.  An absent `version` field would be `undefined` and
`undefined.match` throws a `TypeError`. -/
def getCurrentVersionE (vm : VersionManager) (fs : FS) : Except Err SemVer :=
  match fs.read vm.packageJsonPath with
  | none => .error (.ioError vm.packageJsonPath)
  | some content =>
    match jsonParse content with
    | .error e => .error e
    | .ok doc =>
      match doc.version with
      | none => .error .typeError
      | some s => ensureSemanticVersion s

/-- `VersionManager.readLog` as a pure read: an absent log file is an empty
history (created lazily, no write); otherwise the file must be JSON (else
`Invalid JSON in version log`) with an array `history` field (else
`Invalid version log structure`). -/
def readLogE (vm : VersionManager) (fs : FS) : Except Err Doc :=
  match fs.read vm.versionLogPath with
  | none => .ok ⟨none, some []⟩
  | some content =>
    match jsonParse content with
    | .error _ => .error (.invalidLogJson vm.versionLogPath)
    | .ok doc =>
      match doc.history with
      | some _ => .ok doc
      | none => .error .invalidLogStructure

/-- The document written back by an appending operation:
`JSON.stringify(log)` after `validateAndRepairLog` normalized the entries in
place and the new entry was pushed. -/
def writeBackDoc (doc : Doc) (hist : List VEntry) : Doc :=
  { doc with history := some (hist.map VEntry.toLogEntry) }

/-- `VersionManager.listHistory`: read, validate, return the (normalized)
entries.  Pure read — no write. -/
def VersionManager.listHistory (vm : VersionManager) (fs : FS) : Out (List LogEntry) :=
  (match readLogE vm fs with
   | .error e => .error e
   | .ok doc =>
     match validateAndRepairLog (doc.history.getD []) with
     | .error e => .error e
     | .ok hist => .ok (hist.map VEntry.toLogEntry), fs, [])

/-- `VersionManager.validateHistory`: read and validate, discarding the
result.  Pure read — no write. -/
def VersionManager.validateHistory (vm : VersionManager) (fs : FS) : Out Unit :=
  (match readLogE vm fs with
   | .error e => .error e
   | .ok doc =>
     match validateAndRepairLog (doc.history.getD []) with
     | .error e => .error e
     | .ok _ => .ok (), fs, [])

/-- `VersionManager.recommendNextVersion`: latest logged version (or `0.0.0`
when the history is empty — normalized version text is never falsy otherwise)
bumped at the requested level.  Pure read — no write. -/
inductive Level where
  | patch
  | minor
  | major
deriving DecidableEq, Repr

def recommendNextVersionE (vm : VersionManager) (level : Level) (fs : FS) :
    Except Err SemVer :=
  match readLogE vm fs with
  | .error e => .error e
  | .ok doc =>
    match validateAndRepairLog (doc.history.getD []) with
    | .error e => .error e
    | .ok hist =>
      .ok (match level with
           | .patch => ⟨(((hist.getLast?).map VEntry.version).getD ⟨0, 0, 0⟩).major,
                        (((hist.getLast?).map VEntry.version).getD ⟨0, 0, 0⟩).minor,
                        (((hist.getLast?).map VEntry.version).getD ⟨0, 0, 0⟩).patch + 1⟩
           | .minor => ⟨(((hist.getLast?).map VEntry.version).getD ⟨0, 0, 0⟩).major,
                        (((hist.getLast?).map VEntry.version).getD ⟨0, 0, 0⟩).minor + 1, 0⟩
           | .major => ⟨(((hist.getLast?).map VEntry.version).getD ⟨0, 0, 0⟩).major + 1, 0, 0⟩)

def VersionManager.recommendNextVersion (vm : VersionManager) (level : Level) (fs : FS) :
    Out SemVer :=
  (recommendNextVersionE vm level fs, fs, [])

/-- `VersionManager.ensureCurrentVersionValid`.  Reads the manifest version,
reads and validates the log, then: empty history → append the current version
(notes `Initial recorded version`); current < latest → `VersionRegression`;
current > latest → append (notes `Detected a new version set in package.json
outside of a "bump" command`); equal → nothing.  The source phrases the first
two comparisons as `!isVersionGreaterOrEqual` with an inner `< 0` re-check and
an `else if > 0`; the three-way split below is the same decision tree. -/
def VersionManager.ensureCurrentVersionValid (vm : VersionManager) (now : String)
    (fs : FS) : Out Unit :=
  match getCurrentVersionE vm fs with
  | .error e => (.error e, fs, [])
  | .ok currentVersion =>
    match readLogE vm fs with
    | .error e => (.error e, fs, [])
    | .ok doc =>
      match validateAndRepairLog (doc.history.getD []) with
      | .error e => (.error e, fs, [])
      | .ok hist =>
        match hist.getLast? with
        | none =>
          (.ok (), fs.write vm.versionLogPath
              (.jsonFile (writeBackDoc doc
                (hist ++ [⟨currentVersion, now, some "Initial recorded version"⟩]))),
            [(vm.versionLogPath, .jsonFile (writeBackDoc doc
              (hist ++ [⟨currentVersion, now, some "Initial recorded version"⟩])))])
        | some le =>
          if compareVersions currentVersion le.version < 0 then
            (.error (.versionRegression currentVersion.render le.version.render), fs, [])
          else if compareVersions currentVersion le.version > 0 then
            (.ok (), fs.write vm.versionLogPath
                (.jsonFile (writeBackDoc doc (hist ++ [⟨currentVersion, now,
                  some "Detected a new version set in package.json outside of a \"bump\" command"⟩]))),
              [(vm.versionLogPath, .jsonFile (writeBackDoc doc (hist ++ [⟨currentVersion, now,
                some "Detected a new version set in package.json outside of a \"bump\" command"⟩])))])
          else (.ok (), fs, [])

/-- `VersionManager.addCurrentVersion`.  Reads the manifest version, reads and
validates the log; with a latest entry present, current < latest is a
`VersionRegression` and current == latest (string equality of normalized
forms, i.e. triple equality) a `DuplicateVersion`; otherwise a new entry with
the given notes is appended and the log written. -/
def VersionManager.addCurrentVersion (vm : VersionManager) (now : String)
    (notes : Option String) (fs : FS) : Out Unit :=
  match getCurrentVersionE vm fs with
  | .error e => (.error e, fs, [])
  | .ok currentVersion =>
    match readLogE vm fs with
    | .error e => (.error e, fs, [])
    | .ok doc =>
      match validateAndRepairLog (doc.history.getD []) with
      | .error e => (.error e, fs, [])
      | .ok hist =>
        match hist.getLast? with
        | none =>
          (.ok (), fs.write vm.versionLogPath
              (.jsonFile (writeBackDoc doc (hist ++ [⟨currentVersion, now, notes⟩]))),
            [(vm.versionLogPath,
              .jsonFile (writeBackDoc doc (hist ++ [⟨currentVersion, now, notes⟩])))])
        | some le =>
          if ¬ isVersionGreaterOrEqual currentVersion le.version then
            (.error (.versionRegression currentVersion.render le.version.render), fs, [])
          else if le.version = currentVersion then
            (.error (.duplicateVersion currentVersion.render), fs, [])
          else
            (.ok (), fs.write vm.versionLogPath
                (.jsonFile (writeBackDoc doc (hist ++ [⟨currentVersion, now, notes⟩]))),
              [(vm.versionLogPath,
                .jsonFile (writeBackDoc doc (hist ++ [⟨currentVersion, now, notes⟩])))])

/-- `VersionManager.incrementVersion`: recommend the next version, have
`ProjectRefUpdater` rewrite the project files to it, throw
`noReferencesUpdated` when zero files changed, else `addCurrentVersion`. -/
def VersionManager.incrementVersion (vm : VersionManager) (now : String) (level : Level)
    (notes : Option String) (fs : FS) : Out Unit :=
  match recommendNextVersionE vm level fs with
  | .error e => (.error e, fs, [])
  | .ok newVersion =>
    match detectAndUpdateVersion vm.projectRoot newVersion.render fs with
    | (.error e, fs1, w1) => (.error e, fs1, w1)
    | (.ok updates, fs1, w1) =>
      if updates.length = 0 then (.error .noReferencesUpdated, fs1, w1)
      else
        match vm.addCurrentVersion now notes fs1 with
        | (r, fs2, w2) => (r, fs2, w1 ++ w2)

/-- The ordering invariant of a validated history, relative to the version
preceding it (if any): every entry is `>=` its predecessor under
`compareVersions`. -/
def chainOk : Option SemVer → List VEntry → Prop
  | _, [] => True
  | none, e :: rest => chainOk (some e.version) rest
  | some lv, e :: rest => 0 ≤ compareVersions e.version lv ∧ chainOk (some e.version) rest

/-- The versions of a history, all parsed against the `X.Y.Z` pattern, or
`none` when some entry fails to parse. -/
def parseVersions : List LogEntry → Option (List SemVer)
  | [] => some []
  | e :: rest =>
    match parseSemVer e.version, parseVersions rest with
    | some v, some vs => some (v :: vs)
    | _, _ => none

/-- `j` is the first out-of-order position of the (parsed) history `vs`,
relative to a preceding version `last`: every adjacent pair before `j` is in
order and the entry at `j` is strictly below its predecessor. -/
inductive FirstViol : Option SemVer → List SemVer → Nat → Prop
  | here {lv v : SemVer} {rest : List SemVer} :
      compareVersions v lv < 0 → FirstViol (some lv) (v :: rest) 0
  | there {last : Option SemVer} {v : SemVer} {rest : List SemVer} {j : Nat} :
      (∀ lv, last = some lv → 0 ≤ compareVersions v lv) →
      FirstViol (some v) rest j → FirstViol last (v :: rest) (j + 1)

/-! ## Basic lemmas about the embedding -/

-- Round-trip facts: parsing the canonical rendering gives the triple back.

theorem digitChar_isDigit {d : Nat} (h : d < 10) : (digitChar d).isDigit = true := by
  interval_cases d <;> decide

theorem digitVal_digitChar {d : Nat} (h : d < 10) : digitVal (digitChar d) = d := by
  interval_cases d <;> decide

theorem natCharsAux_fuel :
    ∀ (f1 f2 n : Nat), n < f1 → n < f2 → natCharsAux f1 n = natCharsAux f2 n := by
  intro f1
  induction f1 with
  | zero => intro f2 n h1; omega
  | succ a ih =>
    intro f2 n h1 h2
    cases f2 with
    | zero => omega
    | succ b =>
      unfold natCharsAux
      by_cases h : n < 10
      · rw [if_pos h, if_pos h]
      · rw [if_neg h, if_neg h]
        have hd : n / 10 < n := Nat.div_lt_self (by omega) (by omega)
        rw [ih b (n / 10) (by omega) (by omega)]

theorem natChars_eq (n : Nat) :
    natChars n = if n < 10 then [digitChar n] else natChars (n / 10) ++ [digitChar (n % 10)] := by
  unfold natChars
  show natCharsAux (n + 1) n = _
  rw [show natCharsAux (n + 1) n =
    (if n < 10 then [digitChar n] else natCharsAux n (n / 10) ++ [digitChar (n % 10)]) from rfl]
  by_cases h : n < 10
  · rw [if_pos h, if_pos h]
  · rw [if_neg h, if_neg h]
    have hd : n / 10 < n := Nat.div_lt_self (by omega) (by omega)
    rw [natCharsAux_fuel n (n / 10 + 1) (n / 10) (by omega) (by omega)]

theorem natChars_ne_nil (n : Nat) : natChars n ≠ [] := by
  rw [natChars_eq]
  split
  · simp
  · simp

theorem natChars_digits (n : Nat) : (natChars n).all Char.isDigit = true := by
  induction n using Nat.strong_induction_on with
  | _ n ih =>
    rw [natChars_eq]
    split
    · next h => simp [digitChar_isDigit h]
    · next h =>
      rw [List.all_append]
      have h10 : 10 ≤ n := Nat.le_of_not_lt h
      have := ih (n / 10) (Nat.div_lt_self (by omega) (by omega))
      simp only [this, List.all_cons, List.all_nil, Bool.and_true, Bool.true_and]
      exact digitChar_isDigit (Nat.mod_lt _ (by omega))

theorem charsToNat_append (l : List Char) (c : Char) :
    charsToNat (l ++ [c]) = charsToNat l * 10 + digitVal c := by
  unfold charsToNat
  rw [List.foldl_append]
  rfl

theorem charsToNat_natChars (n : Nat) : charsToNat (natChars n) = n := by
  induction n using Nat.strong_induction_on with
  | _ n ih =>
    rw [natChars_eq]
    split
    · next h =>
      show charsToNat [digitChar n] = n
      unfold charsToNat
      simp [digitVal_digitChar h]
    · next h =>
      have h10 : 10 ≤ n := Nat.le_of_not_lt h
      rw [charsToNat_append, ih (n / 10) (Nat.div_lt_self (by omega) (by omega)),
        digitVal_digitChar (Nat.mod_lt _ (by omega))]
      omega

theorem isDigitList_natChars (n : Nat) : isDigitList (natChars n) = true := by
  unfold isDigitList
  simp [natChars_digits, List.isEmpty_iff, natChars_ne_nil]

theorem dot_not_digit : ('.' : Char).isDigit = false := by decide

theorem splitOnChar_ne_nil (sep : Char) (l : List Char) : splitOnChar sep l ≠ [] := by
  cases l with
  | nil => simp [splitOnChar]
  | cons c cs =>
    unfold splitOnChar
    split
    · simp
    · cases splitOnChar sep cs <;> simp

theorem splitOnChar_no_sep (sep : Char) (l tail : List Char)
    (h : ∀ c ∈ l, c ≠ sep) :
    splitOnChar sep (l ++ tail) =
      match splitOnChar sep tail with
      | g :: gs => (l ++ g) :: gs
      | [] => [l] := by
  induction l with
  | nil =>
    simp only [List.nil_append]
    cases hs : splitOnChar sep tail with
    | nil => exact absurd hs (splitOnChar_ne_nil sep tail)
    | cons g gs => simp
  | cons c cs ih =>
    have hc : c ≠ sep := h c (by simp)
    have hrest : ∀ x ∈ cs, x ≠ sep := fun x hx => h x (by simp [hx])
    have lres := ih hrest
    show splitOnChar sep (c :: (cs ++ tail)) = _
    conv_lhs => rw [splitOnChar]
    simp only [if_neg hc]
    rw [lres]
    cases hs : splitOnChar sep tail with
    | nil => exact absurd hs (splitOnChar_ne_nil sep tail)
    | cons g gs => simp

theorem splitOnChar_digits_dot (a b c : List Char)
    (ha : a.all Char.isDigit = true) (hb : b.all Char.isDigit = true)
    (hc : c.all Char.isDigit = true) :
    splitOnChar '.' (a ++ '.' :: b ++ '.' :: c) = [a, b, c] := by
  have hnd : ∀ (l : List Char), l.all Char.isDigit = true → ∀ x ∈ l, x ≠ '.' := by
    intro l hl x hx
    have := List.all_eq_true.mp hl x hx
    intro hx'
    rw [hx'] at this
    simp [dot_not_digit] at this
  have hcs : splitOnChar '.' c = [c] := by
    have := splitOnChar_no_sep '.' c [] (hnd c hc)
    simpa [splitOnChar] using this
  have hbc : splitOnChar '.' ('.' :: c) = [[], c] := by
    conv_lhs => rw [splitOnChar]
    rw [hcs]
    simp
  have hb2 : splitOnChar '.' (b ++ '.' :: c) = [b, c] := by
    rw [splitOnChar_no_sep '.' b ('.' :: c) (hnd b hb), hbc]
    simp
  have hab : splitOnChar '.' ('.' :: (b ++ '.' :: c)) = [[], b, c] := by
    conv_lhs => rw [splitOnChar]
    rw [hb2]
    simp
  calc splitOnChar '.' (a ++ '.' :: b ++ '.' :: c)
      = splitOnChar '.' (a ++ ('.' :: (b ++ '.' :: c))) := by simp
    _ = [a, b, c] := by
        rw [splitOnChar_no_sep '.' a _ (hnd a ha), hab]
        simp

theorem parseSemVer_render (v : SemVer) : parseSemVer v.render = some v := by
  unfold parseSemVer SemVer.render
  have hsplit := splitOnChar_digits_dot (natChars v.major) (natChars v.minor)
    (natChars v.patch) (natChars_digits _) (natChars_digits _) (natChars_digits _)
  simp only [String.data]
  rw [hsplit]
  simp [isDigitList_natChars, charsToNat_natChars]


theorem FS.read_write_self (fs : FS) (p : String) (d : FileData) :
    (fs.write p d).read p = some d := by
  induction fs with
  | nil => simp [FS.write, FS.read]
  | cons hd rest ih =>
    obtain ⟨q, e⟩ := hd
    by_cases h : q = p
    · simp [FS.write, FS.read, h]
    · simp [FS.write, FS.read, h, ih]

theorem compareVersions_self (v : SemVer) : compareVersions v v = 0 := by
  simp [compareVersions]

theorem compareVersions_eq_zero_iff {a b : SemVer} : compareVersions a b = 0 ↔ a = b := by
  unfold compareVersions
  constructor
  · intro h
    split_ifs at h <;> try omega
    cases a
    cases b
    simp_all
  · intro h
    subst h
    simp

theorem compareVersions_cases (a b : SemVer) :
    compareVersions a b = -1 ∨ compareVersions a b = 0 ∨ compareVersions a b = 1 := by
  unfold compareVersions
  split_ifs <;> simp

theorem isGE_iff {a b : SemVer} :
    isVersionGreaterOrEqual a b = true ↔ 0 ≤ compareVersions a b := by
  unfold isVersionGreaterOrEqual
  exact decide_eq_true_iff

theorem isGE_false_iff {a b : SemVer} :
    isVersionGreaterOrEqual a b = false ↔ compareVersions a b < 0 := by
  unfold isVersionGreaterOrEqual
  rw [decide_eq_false_iff_not]
  omega

theorem FS.read_write_ne (fs : FS) (p q : String) (d : FileData) (h : q ≠ p) :
    (fs.write p d).read q = fs.read q := by
  induction fs with
  | nil => simp [FS.write, FS.read, Ne.symm h]
  | cons hd rest ih =>
    obtain ⟨r, e⟩ := hd
    by_cases hr : r = p
    · subst hr
      simp [FS.write, FS.read, Ne.symm h]
    · simp only [FS.write, if_neg hr, FS.read]
      by_cases hq : r = q <;> simp [hq, ih]

theorem repairAux_chainOk :
    ∀ (h : List LogEntry) (last : Option SemVer) (i : Nat) (l : List VEntry),
      repairAux last i h = .ok l → chainOk last l := by
  intro h
  induction h with
  | nil =>
    intro last i l hr
    unfold repairAux at hr
    cases hr
    cases last <;> trivial
  | cons e rest ih =>
    intro last i l hr
    unfold repairAux at hr
    cases hv : ensureSemanticVersion e.version with
    | error err => rw [hv] at hr; cases hr
    | ok v =>
      rw [hv] at hr
      cases last with
      | none =>
        simp only at hr
        cases hrec : repairAux (some v) (i + 1) rest with
        | error err => rw [hrec] at hr; cases hr
        | ok l' =>
          rw [hrec] at hr
          cases hr
          exact ih (some v) (i + 1) l' hrec
      | some lv =>
        simp only at hr
        by_cases hge : isVersionGreaterOrEqual v lv = true
        · rw [if_pos hge] at hr
          cases hrec : repairAux (some v) (i + 1) rest with
          | error err => rw [hrec] at hr; cases hr
          | ok l' =>
            rw [hrec] at hr
            cases hr
            exact ⟨isGE_iff.mp hge, ih (some v) (i + 1) l' hrec⟩
        · rw [if_neg hge] at hr
          cases hr

theorem repairAux_of_chainOk :
    ∀ (l : List VEntry) (last : Option SemVer) (i : Nat), chainOk last l →
      repairAux last i (l.map VEntry.toLogEntry) = .ok l := by
  intro l
  induction l with
  | nil => intro last i _; rfl
  | cons e rest ih =>
    intro last i hc
    have hparse : ensureSemanticVersion (VEntry.toLogEntry e).version = .ok e.version := by
      unfold ensureSemanticVersion VEntry.toLogEntry
      rw [parseSemVer_render]
    show repairAux last i (VEntry.toLogEntry e :: rest.map VEntry.toLogEntry) = .ok (e :: rest)
    unfold repairAux
    rw [hparse]
    cases last with
    | none =>
      simp only
      rw [ih (some e.version) (i + 1) hc]
      show Except.ok (⟨e.version, e.timestamp, e.notes⟩ :: rest) = .ok (e :: rest)
      rfl
    | some lv =>
      obtain ⟨hge, hc'⟩ := hc
      simp only
      rw [if_pos (isGE_iff.mpr hge), ih (some e.version) (i + 1) hc']
      rfl

theorem validateAndRepairLog_roundTrip (l : List VEntry) (hc : chainOk none l) :
    validateAndRepairLog (l.map VEntry.toLogEntry) = .ok l :=
  repairAux_of_chainOk l none 0 hc

theorem chainOk_append :
    ∀ (l : List VEntry) (last : Option SemVer) (e : VEntry), chainOk last l →
      (∀ le, l.getLast? = some le → 0 ≤ compareVersions e.version le.version) →
      (l = [] → ∀ lv, last = some lv → 0 ≤ compareVersions e.version lv) →
      chainOk last (l ++ [e]) := by
  intro l
  induction l with
  | nil =>
    intro last e _ _ hnil
    cases last with
    | none => trivial
    | some lv => exact ⟨hnil rfl lv rfl, trivial⟩
  | cons a rest ih =>
    intro last e hc hlast _
    have hrec : chainOk (some a.version) (rest ++ [e]) := by
      apply ih (some a.version) e
      · cases last with
        | none => exact hc
        | some lv => exact hc.2
      · intro le hle
        apply hlast
        cases rest with
        | nil => cases hle
        | cons b bs => simpa [List.getLast?_cons_cons] using hle
      · intro hrest lv hlv
        subst hrest
        cases hlv
        exact hlast a rfl
    cases last with
    | none => exact hrec
    | some lv => exact ⟨hc.1, hrec⟩

theorem repairAux_shape :
    ∀ (h : List LogEntry) (last : Option SemVer) (i : Nat) (l : List VEntry),
      repairAux last i h = .ok l →
      l.length = h.length ∧
      ∀ k e, h.get? k = some e → ∃ ve, l.get? k = some ve ∧
        parseSemVer e.version = some ve.version ∧
        ve.timestamp = e.timestamp ∧ ve.notes = e.notes := by
  intro h
  induction h with
  | nil =>
    intro last i l hr
    unfold repairAux at hr
    cases hr
    exact ⟨rfl, fun k e hk => by cases hk⟩
  | cons e rest ih =>
    intro last i l hr
    unfold repairAux at hr
    cases hv : ensureSemanticVersion e.version with
    | error err => rw [hv] at hr; cases hr
    | ok v =>
      rw [hv] at hr
      have hparse : parseSemVer e.version = some v := by
        unfold ensureSemanticVersion at hv
        cases hp : parseSemVer e.version with
        | none => rw [hp] at hv; cases hv
        | some w => rw [hp] at hv; cases hv; rfl
      have main : ∀ l', repairAux (some v) (i + 1) rest = .ok l' →
          l = ⟨v, e.timestamp, e.notes⟩ :: l' →
          l.length = (e :: rest).length ∧
          ∀ k e', (e :: rest).get? k = some e' → ∃ ve, l.get? k = some ve ∧
            parseSemVer e'.version = some ve.version ∧
            ve.timestamp = e'.timestamp ∧ ve.notes = e'.notes := by
        intro l' hrec hl
        obtain ⟨hlen, hcorr⟩ := ih (some v) (i + 1) l' hrec
        subst hl
        refine ⟨by simp [hlen], ?_⟩
        intro k e' hk
        cases k with
        | zero =>
          cases hk
          exact ⟨⟨v, e.timestamp, e.notes⟩, rfl, hparse, rfl, rfl⟩
        | succ k' => exact hcorr k' e' hk
      cases last with
      | none =>
        simp only at hr
        cases hrec : repairAux (some v) (i + 1) rest with
        | error err => rw [hrec] at hr; cases hr
        | ok l' =>
          rw [hrec] at hr
          cases hr
          exact main l' hrec rfl
      | some lv =>
        simp only at hr
        by_cases hge : isVersionGreaterOrEqual v lv = true
        · rw [if_pos hge] at hr
          cases hrec : repairAux (some v) (i + 1) rest with
          | error err => rw [hrec] at hr; cases hr
          | ok l' =>
            rw [hrec] at hr
            cases hr
            exact main l' hrec rfl
        · rw [if_neg hge] at hr
          cases hr

theorem repairAux_firstViol :
    ∀ (h : List LogEntry) (vs : List SemVer) (last : Option SemVer) (i j : Nat),
      parseVersions h = some vs →
      FirstViol last vs j →
      ∃ v lv, vs.get? j = some v ∧ compareVersions v lv < 0 ∧
        (match j with
         | 0 => last = some lv
         | k + 1 => vs.get? k = some lv) ∧
        repairAux last i h = .error (.historicalRegression (i + j) v.render lv.render) := by
  intro h
  induction h with
  | nil =>
    intro vs last i j hp hv
    unfold parseVersions at hp
    cases hp
    cases hv
  | cons e rest ih =>
    intro vs last i j hp hv
    unfold parseVersions at hp
    cases hpe : parseSemVer e.version with
    | none => rw [hpe] at hp; cases hp
    | some v0 =>
      rw [hpe] at hp
      cases hprest : parseVersions rest with
      | none => rw [hprest] at hp; cases hp
      | some vs' =>
        rw [hprest] at hp
        cases hp
        have hparse : ensureSemanticVersion e.version = .ok v0 := by
          unfold ensureSemanticVersion
          rw [hpe]
        cases hv with
        | here hlt =>
          refine ⟨v0, _, rfl, hlt, rfl, ?_⟩
          unfold repairAux
          rw [hparse]
          simp only
          have hge' := isGE_false_iff.mpr hlt
          rw [if_neg (by simp [hge'])]
          rfl
        | there hge hv' =>
          next j' =>
          obtain ⟨v, lv, hget, hlt, hpred, hrec⟩ := ih vs' (some v0) (i + 1) j' hprest hv'
          have hrepair :
              repairAux last i (e :: rest)
                = .error (.historicalRegression (i + (j' + 1)) v.render lv.render) := by
            have harith : i + 1 + j' = i + (j' + 1) := by omega
            unfold repairAux
            rw [hparse]
            cases last with
            | none =>
              simp only
              rw [hrec, harith]
              rfl
            | some lv0 =>
              simp only
              rw [if_pos (isGE_iff.mpr (hge lv0 rfl)), hrec, harith]
              rfl
          refine ⟨v, lv, hget, hlt, ?_, hrepair⟩
          cases j' with
          | zero =>
            cases hpred
            rfl
          | succ k => exact hpred

theorem addCurrentVersion_cases (vm : VersionManager) (now : String)
    (notes : Option String) (fs : FS) :
    (∃ e, vm.addCurrentVersion now notes fs = (.error e, fs, [])) ∨
    (∃ cv doc hist, getCurrentVersionE vm fs = .ok cv ∧ readLogE vm fs = .ok doc ∧
      validateAndRepairLog (doc.history.getD []) = .ok hist ∧
      (∀ le, hist.getLast? = some le →
        isVersionGreaterOrEqual cv le.version = true ∧ le.version ≠ cv) ∧
      vm.addCurrentVersion now notes fs =
        (.ok (), fs.write vm.versionLogPath
            (.jsonFile (writeBackDoc doc (hist ++ [⟨cv, now, notes⟩]))),
          [(vm.versionLogPath,
            .jsonFile (writeBackDoc doc (hist ++ [⟨cv, now, notes⟩])))])) := by
  unfold VersionManager.addCurrentVersion
  split
  next e hcv => exact Or.inl ⟨e, rfl⟩
  next cv hcv =>
    split
    next e hdoc => exact Or.inl ⟨e, rfl⟩
    next doc hdoc =>
      split
      next e hval => exact Or.inl ⟨e, rfl⟩
      next hist hval =>
        split
        next hlast =>
          refine Or.inr ⟨cv, doc, hist, hcv, hdoc, hval, ?_, rfl⟩
          intro le hle
          rw [hlast] at hle
          cases hle
        next le hlast =>
          split
          next hnge => exact Or.inl ⟨_, rfl⟩
          next hge =>
            split
            next hdup => exact Or.inl ⟨_, rfl⟩
            next hdup =>
              refine Or.inr ⟨cv, doc, hist, hcv, hdoc, hval, ?_, rfl⟩
              intro le' hle'
              rw [hlast] at hle'
              cases hle'
              exact ⟨not_not.mp hge, hdup⟩

theorem ensureCurrentVersionValid_cases (vm : VersionManager) (now : String) (fs : FS) :
    (∃ e, vm.ensureCurrentVersionValid now fs = (.error e, fs, [])) ∨
    (vm.ensureCurrentVersionValid now fs = (.ok (), fs, [])) ∨
    (∃ cv doc hist nt, getCurrentVersionE vm fs = .ok cv ∧ readLogE vm fs = .ok doc ∧
      validateAndRepairLog (doc.history.getD []) = .ok hist ∧
      (∀ le, hist.getLast? = some le → 0 < compareVersions cv le.version) ∧
      vm.ensureCurrentVersionValid now fs =
        (.ok (), fs.write vm.versionLogPath
            (.jsonFile (writeBackDoc doc (hist ++ [⟨cv, now, some nt⟩]))),
          [(vm.versionLogPath,
            .jsonFile (writeBackDoc doc (hist ++ [⟨cv, now, some nt⟩])))])) := by
  unfold VersionManager.ensureCurrentVersionValid
  split
  next e hcv => exact Or.inl ⟨e, rfl⟩
  next cv hcv =>
    split
    next e hdoc => exact Or.inl ⟨e, rfl⟩
    next doc hdoc =>
      split
      next e hval => exact Or.inl ⟨e, rfl⟩
      next hist hval =>
        split
        next hlast =>
          refine Or.inr (Or.inr ⟨cv, doc, hist, _, hcv, hdoc, hval, ?_, rfl⟩)
          intro le hle
          rw [hlast] at hle
          cases hle
        next le hlast =>
          split
          next hlt => exact Or.inl ⟨_, rfl⟩
          next hlt =>
            split
            next hgt =>
              refine Or.inr (Or.inr ⟨cv, doc, hist, _, hcv, hdoc, hval, ?_, rfl⟩)
              intro le' hle'
              rw [hlast] at hle'
              cases hle'
              exact hgt
            next hgt => exact Or.inr (Or.inl rfl)

theorem updateOneFile_cases (root v name : String) (strat : Strategy) (fs : FS) :
    (updateOneFile root v name strat fs = (.ok none, fs, []) ∧
      ¬ ∃ content old, fs.read (pathJoin root name) = some content ∧
          strat.detect content = .ok (some old) ∧
          (semverValid old && svLtStr old v) = true) ∨
    (∃ content old d, fs.read (pathJoin root name) = some content ∧
        strat.detect content = .ok (some old) ∧
        (semverValid old && svLtStr old v) = true ∧
        strat.replace content v = .ok d ∧
        updateOneFile root v name strat fs =
          (.ok (some ⟨pathJoin root name, old, v⟩), fs.write (pathJoin root name) d,
            [(pathJoin root name, d)])) ∨
    (∃ e, updateOneFile root v name strat fs = (.error e, fs, [])) := by
  unfold updateOneFile
  split
  next hread =>
    left
    refine ⟨rfl, ?_⟩
    rintro ⟨c, o, hc, -, -⟩
    rw [hread] at hc
    cases hc
  next content hread =>
    split
    next e hdet => right; right; exact ⟨e, rfl⟩
    next hdet =>
      left
      refine ⟨rfl, ?_⟩
      rintro ⟨c, o, hc, hd, -⟩
      rw [hread] at hc
      cases hc
      rw [hdet] at hd
      cases hd
    next old hdet =>
      split
      next hgate =>
        split
        next e hrep => right; right; exact ⟨e, rfl⟩
        next d hrep =>
          right; left
          exact ⟨content, old, d, hread, hdet, hgate, hrep, rfl⟩
      next hgate =>
        left
        refine ⟨rfl, ?_⟩
        rintro ⟨c, o, hc, hd, hg⟩
        rw [hread] at hc
        cases hc
        rw [hdet] at hd
        cases hd
        exact hgate hg

theorem pathJoin_ne (root : String) {a b : String} (h : a ≠ b) :
    pathJoin root a ≠ pathJoin root b := by
  unfold pathJoin
  intro he
  apply h
  have hd : (root ++ "/" ++ a).data = (root ++ "/" ++ b).data := congrArg String.data he
  simp only [String.data_append] at hd
  exact String.ext (List.append_cancel_left hd)

theorem registry_paths_ne (root : String) :
    pathJoin root "package.json" ≠ pathJoin root "README.md" :=
  pathJoin_ne root (by decide)

theorem updateOneFile_read_other (root v name : String) (strat : Strategy) (fs : FS)
    (q : String) (hq : q ≠ pathJoin root name) :
    ((updateOneFile root v name strat fs).2.1).read q = fs.read q := by
  rcases updateOneFile_cases root v name strat fs with
    ⟨h, -⟩ | ⟨c, o, d, -, -, -, -, h⟩ | ⟨e, h⟩ <;> rw [h]
  · exact FS.read_write_ne fs (pathJoin root name) q d hq

theorem detectAndUpdateVersion_read_other (root v : String) (fs : FS) (q : String)
    (h1 : q ≠ pathJoin root "package.json") (h2 : q ≠ pathJoin root "README.md") :
    ((detectAndUpdateVersion root v fs).2.1).read q = fs.read q := by
  unfold detectAndUpdateVersion
  split
  next hv =>
    rcases updateOneFile_cases root v "package.json" .packageJson fs with
      ⟨h, -⟩ | ⟨c1, o1, d1, -, -, -, -, h⟩ | ⟨e1, h⟩ <;> rw [h] <;> dsimp only
    · rcases updateOneFile_cases root v "README.md" .readme fs with
        ⟨h', -⟩ | ⟨c2, o2, d2, -, -, -, -, h'⟩ | ⟨e2, h'⟩ <;> rw [h'] <;> dsimp only
      exact FS.read_write_ne fs _ q d2 h2
    · rcases updateOneFile_cases root v "README.md" .readme
          (fs.write (pathJoin root "package.json") d1) with
        ⟨h', -⟩ | ⟨c2, o2, d2, -, -, -, -, h'⟩ | ⟨e2, h'⟩ <;> rw [h'] <;> dsimp only
      · exact FS.read_write_ne fs _ q d1 h1
      · rw [FS.read_write_ne _ _ q d2 h2]
        exact FS.read_write_ne fs _ q d1 h1
      · exact FS.read_write_ne fs _ q d1 h1
  next hv => rfl

theorem ensureSemanticVersion_error {s : String} {e : Err}
    (h : ensureSemanticVersion s = .error e) : e = .invalidSemanticVersion s := by
  unfold ensureSemanticVersion at h
  split at h
  · cases h
  · cases h
    rfl

theorem repairAux_error_shape :
    ∀ (h : List LogEntry) (last : Option SemVer) (i : Nat) (e : Err),
      repairAux last i h = .error e →
      (∃ s, e = .invalidSemanticVersion s) ∨ ∃ p a b, e = .historicalRegression p a b := by
  intro h
  induction h with
  | nil =>
    intro last i e hr
    unfold repairAux at hr
    cases hr
  | cons a rest ih =>
    intro last i e hr
    unfold repairAux at hr
    split at hr
    next herr =>
      cases hr
      exact Or.inl ⟨_, ensureSemanticVersion_error herr⟩
    next v hok =>
      split at hr
      next lv =>
        split at hr
        next =>
          cases hrec : repairAux (some v) (i + 1) rest with
          | error e2 =>
            rw [hrec] at hr
            cases hr
            exact ih (some v) (i + 1) _ hrec
          | ok l2 => rw [hrec] at hr; cases hr
        next =>
          cases hr
          exact Or.inr ⟨_, _, _, rfl⟩
      next =>
        cases hrec : repairAux (some v) (i + 1) rest with
        | error e2 =>
          rw [hrec] at hr
          cases hr
          exact ih (some v) (i + 1) _ hrec
        | ok l2 => rw [hrec] at hr; cases hr

theorem getCurrentVersionE_error_ne_noRef {vm : VersionManager} {fs : FS} {e : Err}
    (h : getCurrentVersionE vm fs = .error e) : e ≠ .noReferencesUpdated := by
  unfold getCurrentVersionE at h
  split at h
  · cases h; simp
  next content hread =>
    cases content with
    | textFile s =>
      simp only [jsonParse] at h
      cases h
      simp
    | jsonFile doc =>
      simp only [jsonParse] at h
      cases hv : doc.version with
      | none =>
        rw [hv] at h
        cases h
        simp
      | some s =>
        rw [hv] at h
        have he := ensureSemanticVersion_error h
        subst he
        simp

theorem readLogE_error_ne_noRef {vm : VersionManager} {fs : FS} {e : Err}
    (h : readLogE vm fs = .error e) : e ≠ .noReferencesUpdated := by
  unfold readLogE at h
  split at h
  · cases h
  · split at h
    · cases h; simp
    · split at h
      · cases h
      · cases h; simp

theorem addCurrentVersion_ne_noRef (vm : VersionManager) (now : String)
    (notes : Option String) (fs fs2 : FS) (w : List (String × FileData)) :
    vm.addCurrentVersion now notes fs ≠ (.error .noReferencesUpdated, fs2, w) := by
  intro h
  unfold VersionManager.addCurrentVersion at h
  split at h
  next e hcv =>
    cases h
    exact getCurrentVersionE_error_ne_noRef hcv rfl
  next cv hcv =>
    split at h
    next e hdoc =>
      cases h
      exact readLogE_error_ne_noRef hdoc rfl
    next doc hdoc =>
      split at h
      next e hval =>
        cases h
        rcases repairAux_error_shape _ none 0 _ hval with ⟨s, hs⟩ | ⟨p, a, b, hs⟩ <;> cases hs
      next hist hval =>
        split at h
        next => cases h
        next le hlast =>
          split at h
          next => cases h
          next =>
            split at h
            · cases h
            · cases h

theorem getCurrentVersionE_write_log (vm : VersionManager)
    (hne : vm.packageJsonPath ≠ vm.versionLogPath) (fs : FS) (d : FileData) :
    getCurrentVersionE vm (fs.write vm.versionLogPath d) = getCurrentVersionE vm fs := by
  unfold getCurrentVersionE
  rw [FS.read_write_ne _ _ _ _ hne]

theorem readLogE_after_write (vm : VersionManager) (fs : FS) (doc : Doc)
    (hist : List VEntry) :
    readLogE vm (fs.write vm.versionLogPath (.jsonFile (writeBackDoc doc hist)))
      = .ok (writeBackDoc doc hist) := by
  unfold readLogE
  rw [FS.read_write_self]
  rfl

theorem ensure_run (vm : VersionManager) (now : String) (fs : FS) (cv : SemVer)
    (doc : Doc) (hist : List VEntry)
    (hcv : getCurrentVersionE vm fs = .ok cv)
    (hdoc : readLogE vm fs = .ok doc)
    (hval : validateAndRepairLog (doc.history.getD []) = .ok hist) :
    vm.ensureCurrentVersionValid now fs =
      match hist.getLast? with
      | none =>
        (.ok (), fs.write vm.versionLogPath (.jsonFile (writeBackDoc doc
            (hist ++ [⟨cv, now, some "Initial recorded version"⟩]))),
          [(vm.versionLogPath, .jsonFile (writeBackDoc doc
            (hist ++ [⟨cv, now, some "Initial recorded version"⟩])))])
      | some le =>
        if compareVersions cv le.version < 0 then
          (.error (.versionRegression cv.render le.version.render), fs, [])
        else if compareVersions cv le.version > 0 then
          (.ok (), fs.write vm.versionLogPath (.jsonFile (writeBackDoc doc
              (hist ++ [⟨cv, now,
                some "Detected a new version set in package.json outside of a \"bump\" command"⟩]))),
            [(vm.versionLogPath, .jsonFile (writeBackDoc doc
              (hist ++ [⟨cv, now,
                some "Detected a new version set in package.json outside of a \"bump\" command"⟩])))])
        else (.ok (), fs, []) := by
  unfold VersionManager.ensureCurrentVersionValid
  rw [hcv]
  dsimp only
  rw [hdoc]
  dsimp only
  rw [hval]

theorem add_run (vm : VersionManager) (now : String) (notes : Option String) (fs : FS)
    (cv : SemVer) (doc : Doc) (hist : List VEntry)
    (hcv : getCurrentVersionE vm fs = .ok cv)
    (hdoc : readLogE vm fs = .ok doc)
    (hval : validateAndRepairLog (doc.history.getD []) = .ok hist) :
    vm.addCurrentVersion now notes fs =
      match hist.getLast? with
      | none =>
        (.ok (), fs.write vm.versionLogPath
            (.jsonFile (writeBackDoc doc (hist ++ [⟨cv, now, notes⟩]))),
          [(vm.versionLogPath, .jsonFile (writeBackDoc doc (hist ++ [⟨cv, now, notes⟩])))])
      | some le =>
        if ¬ isVersionGreaterOrEqual cv le.version then
          (.error (.versionRegression cv.render le.version.render), fs, [])
        else if le.version = cv then
          (.error (.duplicateVersion cv.render), fs, [])
        else
          (.ok (), fs.write vm.versionLogPath
              (.jsonFile (writeBackDoc doc (hist ++ [⟨cv, now, notes⟩]))),
            [(vm.versionLogPath,
              .jsonFile (writeBackDoc doc (hist ++ [⟨cv, now, notes⟩])))]) := by
  unfold VersionManager.addCurrentVersion
  rw [hcv]
  dsimp only
  rw [hdoc]
  dsimp only
  rw [hval]

/-- The appended history of a successful append is still a valid chain, so the
next read validates it back to the same entries. -/
theorem appended_validates (doc : Doc) (hist : List VEntry)
    (hval : validateAndRepairLog (doc.history.getD []) = .ok hist) (e : VEntry)
    (hle : ∀ le, hist.getLast? = some le → 0 ≤ compareVersions e.version le.version) :
    validateAndRepairLog ((writeBackDoc doc (hist ++ [e])).history.getD [])
      = .ok (hist ++ [e]) := by
  have hchain : chainOk none hist := repairAux_chainOk _ none 0 hist hval
  have hchain2 : chainOk none (hist ++ [e]) :=
    chainOk_append hist none e hchain hle (by intro _ lv h; cases h)
  show validateAndRepairLog (((hist ++ [e]).map VEntry.toLogEntry)) = .ok (hist ++ [e])
  exact validateAndRepairLog_roundTrip _ hchain2

/-! ## The claims -/

/-- C2 (code bug): on the content `"version: 1.0.0"` the free-text strategy's
`replaceVersion` with new version `"1.1.0"` is claimed to produce
`"version: 1.1.0"` — the matched version span replaced verbatim, the marker
kept.  The code's replacement template `` `$1${newVersion}` `` instead
replaces the whole matched span (marker included) with the captured old
version concatenated with the new one, yielding `"1.0.01.1.0"`.  The spec
itself flags this concatenating form as a bug, so the claim is right and the
code wrong. -/
theorem claim_C2_readme_replace_bug :
    readmeDetect "version: 1.0.0" = some "1.0.0" ∧
    readmeReplace "version: 1.0.0" "1.1.0" = "1.0.01.1.0" ∧
    readmeReplaceSpec "version: 1.0.0" "1.1.0" = "version: 1.1.0" ∧
    readmeReplace "version: 1.0.0" "1.1.0" ≠ readmeReplaceSpec "version: 1.0.0" "1.1.0" := by
  refine ⟨by decide, by decide, by decide, by decide⟩

/-- C3 (code bug): on a manifest `{"version": "1.0.0"}` and target `"1.1.0"`,
the structured-manifest strategy is claimed to produce — and
`detectAndUpdateVersion` to write back — the whole document re-serialized with
its `version` field set.  The code's `replaceVersion` returns `json.version`
(the bare new version string) after the assignment, and that bare string is
what gets written: the manifest afterwards holds the text `1.1.0`, which is
not even valid JSON, rather than the updated document. -/
theorem claim_C3_manifest_write_bug :
    Strategy.replace .packageJson (.jsonFile ⟨some "1.0.0", none⟩) "1.1.0"
      = .ok (.textFile "1.1.0") ∧
    pkgReplaceSpec (.jsonFile ⟨some "1.0.0", none⟩) "1.1.0"
      = .ok (.jsonFile ⟨some "1.1.0", none⟩) ∧
    detectAndUpdateVersion "proj" "1.1.0" [("proj/package.json", .jsonFile ⟨some "1.0.0", none⟩)]
      = (.ok [⟨"proj/package.json", "1.0.0", "1.1.0"⟩],
         [("proj/package.json", .textFile "1.1.0")],
         [("proj/package.json", .textFile "1.1.0")]) ∧
    (FileData.textFile "1.1.0" ≠ .jsonFile ⟨some "1.1.0", none⟩) ∧
    jsonParse (.textFile "1.1.0") = .error .jsonParseError := by
  refine ⟨rfl, rfl, by decide, by decide, rfl⟩

/-- C9: `recommendNextVersion` is a pure function of the log — it leaves the
file system unchanged and issues no writes — and on a validated history it
returns the latest logged version (or `0.0.0` when the history is empty)
bumped as `patch → (M,N,P+1)`, `minor → (M,N+1,0)`, `major → (M+1,0,0)`. -/
theorem claim_C9_recommend_pure (vm : VersionManager) (level : Level) (fs : FS) :
    vm.recommendNextVersion level fs = (recommendNextVersionE vm level fs, fs, []) ∧
    (∀ doc hist, readLogE vm fs = .ok doc →
      validateAndRepairLog (doc.history.getD []) = .ok hist →
      ∃ latest, latest = ((hist.getLast?).map VEntry.version).getD ⟨0, 0, 0⟩ ∧
        recommendNextVersionE vm level fs =
          .ok (match level with
               | .patch => ⟨latest.major, latest.minor, latest.patch + 1⟩
               | .minor => ⟨latest.major, latest.minor + 1, 0⟩
               | .major => ⟨latest.major + 1, 0, 0⟩)) := by
  refine ⟨rfl, ?_⟩
  intro doc hist hdoc hval
  refine ⟨_, rfl, ?_⟩
  unfold recommendNextVersionE
  rw [hdoc]
  dsimp only
  rw [hval]

/-- C9 witness: on a log ending in `2.4.1`, patch recommends `2.4.2`, minor
`2.5.0`, major `3.0.0`; on an empty history, patch recommends `0.0.1`. -/
theorem claim_C9_witness :
    (recommendNextVersionE ⟨"p", "l", "r"⟩ .patch
        [("l", .jsonFile ⟨none, some [⟨"2.4.1", "t", none⟩]⟩)] = .ok ⟨2, 4, 2⟩) ∧
    (recommendNextVersionE ⟨"p", "l", "r"⟩ .minor
        [("l", .jsonFile ⟨none, some [⟨"2.4.1", "t", none⟩]⟩)] = .ok ⟨2, 5, 0⟩) ∧
    (recommendNextVersionE ⟨"p", "l", "r"⟩ .major
        [("l", .jsonFile ⟨none, some [⟨"2.4.1", "t", none⟩]⟩)] = .ok ⟨3, 0, 0⟩) ∧
    (recommendNextVersionE ⟨"p", "l", "r"⟩ .patch [] = .ok ⟨0, 0, 1⟩) := by
  have h1 := ((claim_C9_recommend_pure ⟨"p", "l", "r"⟩ .patch
    [("l", .jsonFile ⟨none, some [⟨"2.4.1", "t", none⟩]⟩)]).2
    ⟨none, some [⟨"2.4.1", "t", none⟩]⟩ [⟨⟨2, 4, 1⟩, "t", none⟩] (by decide) (by decide))
  have h2 := ((claim_C9_recommend_pure ⟨"p", "l", "r"⟩ .minor
    [("l", .jsonFile ⟨none, some [⟨"2.4.1", "t", none⟩]⟩)]).2
    ⟨none, some [⟨"2.4.1", "t", none⟩]⟩ [⟨⟨2, 4, 1⟩, "t", none⟩] (by decide) (by decide))
  have h3 := ((claim_C9_recommend_pure ⟨"p", "l", "r"⟩ .major
    [("l", .jsonFile ⟨none, some [⟨"2.4.1", "t", none⟩]⟩)]).2
    ⟨none, some [⟨"2.4.1", "t", none⟩]⟩ [⟨⟨2, 4, 1⟩, "t", none⟩] (by decide) (by decide))
  have h4 := ((claim_C9_recommend_pure ⟨"p", "l", "r"⟩ .patch []).2
    ⟨none, some []⟩ [] (by decide) (by decide))
  obtain ⟨l1, hl1, he1⟩ := h1
  obtain ⟨l2, hl2, he2⟩ := h2
  obtain ⟨l3, hl3, he3⟩ := h3
  obtain ⟨l4, hl4, he4⟩ := h4
  subst hl1 hl2 hl3 hl4
  exact ⟨he1, he2, he3, he4⟩

/-- C10: every erroring run of a ledger operation leaves the file system
untouched and issues no write: `addCurrentVersion` and
`ensureCurrentVersionValid` write nothing on their error paths, and
`listHistory`, `validateHistory` and `recommendNextVersion` never write at
all, so the persisted log after a raised error is exactly what it was. -/
theorem claim_C10_no_write_on_error (vm : VersionManager) (now : String)
    (notes : Option String) (level : Level) (fs : FS) (e : Err)
    (fs2 : FS) (w : List (String × FileData)) :
    (vm.addCurrentVersion now notes fs = (.error e, fs2, w) → fs2 = fs ∧ w = []) ∧
    (vm.ensureCurrentVersionValid now fs = (.error e, fs2, w) → fs2 = fs ∧ w = []) ∧
    ((vm.listHistory fs).2.1 = fs ∧ (vm.listHistory fs).2.2 = []) ∧
    ((vm.validateHistory fs).2.1 = fs ∧ (vm.validateHistory fs).2.2 = []) ∧
    ((vm.recommendNextVersion level fs).2.1 = fs ∧
      (vm.recommendNextVersion level fs).2.2 = []) := by
  refine ⟨?_, ?_, ⟨rfl, rfl⟩, ⟨rfl, rfl⟩, ⟨rfl, rfl⟩⟩
  · intro hadd
    rcases addCurrentVersion_cases vm now notes fs with ⟨e1, h⟩ |
      ⟨cv, doc, hist, -, -, -, -, h⟩ <;> rw [h] at hadd
    · cases hadd
      exact ⟨rfl, rfl⟩
    · cases hadd
  · intro hens
    rcases ensureCurrentVersionValid_cases vm now fs with ⟨e1, h⟩ | h |
      ⟨cv, doc, hist, nt, -, -, -, -, h⟩ <;> rw [h] at hens
    · cases hens
      exact ⟨rfl, rfl⟩
    · cases hens
    · cases hens

/-- C10 witness: a duplicate-version error from `addCurrentVersion` at a
concrete ledger whose log already records `1.0.0`, with the state and write
list unchanged as the theorem concludes. -/
theorem claim_C10_witness :
    VersionManager.addCurrentVersion ⟨"p", "l", "r"⟩ "T" none
        [("p", .jsonFile ⟨some "1.0.0", none⟩),
         ("l", .jsonFile ⟨none, some [⟨"1.0.0", "t", none⟩]⟩)]
      = (.error (.duplicateVersion "1.0.0"),
         [("p", .jsonFile ⟨some "1.0.0", none⟩),
          ("l", .jsonFile ⟨none, some [⟨"1.0.0", "t", none⟩]⟩)], []) ∧
    ([("p", FileData.jsonFile ⟨some "1.0.0", none⟩),
      ("l", FileData.jsonFile ⟨none, some [⟨"1.0.0", "t", none⟩]⟩)] : FS)
      = [("p", .jsonFile ⟨some "1.0.0", none⟩),
         ("l", .jsonFile ⟨none, some [⟨"1.0.0", "t", none⟩]⟩)] ∧
    ([] : List (String × FileData)) = [] :=
  ⟨by decide,
   ((claim_C10_no_write_on_error ⟨"p", "l", "r"⟩ "T" none .patch
      [("p", .jsonFile ⟨some "1.0.0", none⟩),
       ("l", .jsonFile ⟨none, some [⟨"1.0.0", "t", none⟩]⟩)]
      (.duplicateVersion "1.0.0")
      [("p", .jsonFile ⟨some "1.0.0", none⟩),
       ("l", .jsonFile ⟨none, some [⟨"1.0.0", "t", none⟩]⟩)] []).1 (by decide)).1,
   ((claim_C10_no_write_on_error ⟨"p", "l", "r"⟩ "T" none .patch
      [("p", .jsonFile ⟨some "1.0.0", none⟩),
       ("l", .jsonFile ⟨none, some [⟨"1.0.0", "t", none⟩]⟩)]
      (.duplicateVersion "1.0.0")
      [("p", .jsonFile ⟨some "1.0.0", none⟩),
       ("l", .jsonFile ⟨none, some [⟨"1.0.0", "t", none⟩]⟩)] []).1 (by decide)).2⟩

/-- C6: with the manifest version `cv` and a validated history,
`addCurrentVersion` raises `VersionRegression` when `cv` is strictly below
the latest logged version, raises `DuplicateVersion` when it equals the
latest, and otherwise appends a timestamped entry carrying the given notes;
the equal case is a silent no-op (no error, no write) in
`ensureCurrentVersionValid`. -/
theorem claim_C6_add_current_version (vm : VersionManager) (now : String)
    (notes : Option String) (fs : FS) (cv : SemVer) (doc : Doc) (hist : List VEntry)
    (hcv : getCurrentVersionE vm fs = .ok cv)
    (hdoc : readLogE vm fs = .ok doc)
    (hval : validateAndRepairLog (doc.history.getD []) = .ok hist) :
    (∀ le, hist.getLast? = some le → compareVersions cv le.version < 0 →
      vm.addCurrentVersion now notes fs =
        (.error (.versionRegression cv.render le.version.render), fs, [])) ∧
    (∀ le, hist.getLast? = some le → le.version = cv →
      vm.addCurrentVersion now notes fs =
        (.error (.duplicateVersion cv.render), fs, [])) ∧
    ((∀ le, hist.getLast? = some le → 0 < compareVersions cv le.version) →
      vm.addCurrentVersion now notes fs =
        (.ok (), fs.write vm.versionLogPath
            (.jsonFile (writeBackDoc doc (hist ++ [⟨cv, now, notes⟩]))),
          [(vm.versionLogPath,
            .jsonFile (writeBackDoc doc (hist ++ [⟨cv, now, notes⟩])))])) ∧
    (∀ le, hist.getLast? = some le → le.version = cv →
      vm.ensureCurrentVersionValid now fs = (.ok (), fs, [])) := by
  refine ⟨?_, ?_, ?_, ?_⟩
  · intro le hle hlt
    unfold VersionManager.addCurrentVersion
    rw [hcv]
    dsimp only
    rw [hdoc]
    dsimp only
    rw [hval]
    dsimp only
    rw [hle]
    dsimp only
    rw [if_pos (by simp [isGE_false_iff.mpr hlt])]
  · intro le hle heq
    unfold VersionManager.addCurrentVersion
    rw [hcv]
    dsimp only
    rw [hdoc]
    dsimp only
    rw [hval]
    dsimp only
    rw [hle]
    dsimp only
    have hge : isVersionGreaterOrEqual cv le.version = true := by
      rw [isGE_iff, heq, compareVersions_self]
    rw [if_neg (not_not_intro hge), if_pos heq]
  · intro hgt
    unfold VersionManager.addCurrentVersion
    rw [hcv]
    dsimp only
    rw [hdoc]
    dsimp only
    rw [hval]
    dsimp only
    cases hlast : hist.getLast? with
    | none => rfl
    | some le =>
      dsimp only
      have h0 : 0 < compareVersions cv le.version := hgt le hlast
      have hge : isVersionGreaterOrEqual cv le.version = true := isGE_iff.mpr (by omega)
      have hne : ¬ le.version = cv := by
        intro h
        have : compareVersions cv le.version = 0 := by
          rw [compareVersions_eq_zero_iff]
          exact h.symm
        omega
      rw [if_neg (not_not_intro hge), if_neg hne]
  · intro le hle heq
    unfold VersionManager.ensureCurrentVersionValid
    rw [hcv]
    dsimp only
    rw [hdoc]
    dsimp only
    rw [hval]
    dsimp only
    rw [hle]
    dsimp only
    have h0 : compareVersions cv le.version = 0 := by
      rw [compareVersions_eq_zero_iff]
      exact heq.symm
    rw [if_neg (by omega), if_neg (by omega)]

/-- C6 witness: on concrete ledgers whose log records `1.0.0`, a manifest at
`0.9.0` makes `addCurrentVersion` raise `VersionRegression`, a manifest at
`1.0.0` makes it raise `DuplicateVersion` (while `ensureCurrentVersionValid`
is a no-op there), and a manifest at `2.0.0` appends a new entry. -/
theorem claim_C6_witness :
    VersionManager.addCurrentVersion ⟨"p", "l", "r"⟩ "T" (some "n")
        [("p", .jsonFile ⟨some "0.9.0", none⟩),
         ("l", .jsonFile ⟨none, some [⟨"1.0.0", "t", none⟩]⟩)]
      = (.error (.versionRegression "0.9.0" "1.0.0"),
         [("p", .jsonFile ⟨some "0.9.0", none⟩),
          ("l", .jsonFile ⟨none, some [⟨"1.0.0", "t", none⟩]⟩)], []) ∧
    VersionManager.addCurrentVersion ⟨"p", "l", "r"⟩ "T" (some "n")
        [("p", .jsonFile ⟨some "1.0.0", none⟩),
         ("l", .jsonFile ⟨none, some [⟨"1.0.0", "t", none⟩]⟩)]
      = (.error (.duplicateVersion "1.0.0"),
         [("p", .jsonFile ⟨some "1.0.0", none⟩),
          ("l", .jsonFile ⟨none, some [⟨"1.0.0", "t", none⟩]⟩)], []) ∧
    VersionManager.addCurrentVersion ⟨"p", "l", "r"⟩ "T" (some "n")
        [("p", .jsonFile ⟨some "2.0.0", none⟩),
         ("l", .jsonFile ⟨none, some [⟨"1.0.0", "t", none⟩]⟩)]
      = (.ok (),
         [("p", .jsonFile ⟨some "2.0.0", none⟩),
          ("l", .jsonFile ⟨none, some [⟨"1.0.0", "t", none⟩,
            ⟨"2.0.0", "T", some "n"⟩]⟩)],
         [("l", .jsonFile ⟨none, some [⟨"1.0.0", "t", none⟩,
            ⟨"2.0.0", "T", some "n"⟩]⟩)]) ∧
    VersionManager.ensureCurrentVersionValid ⟨"p", "l", "r"⟩ "T"
        [("p", .jsonFile ⟨some "1.0.0", none⟩),
         ("l", .jsonFile ⟨none, some [⟨"1.0.0", "t", none⟩]⟩)]
      = (.ok (),
         [("p", .jsonFile ⟨some "1.0.0", none⟩),
          ("l", .jsonFile ⟨none, some [⟨"1.0.0", "t", none⟩]⟩)], []) := by
  refine ⟨?_, ?_, ?_, ?_⟩
  · exact (claim_C6_add_current_version ⟨"p", "l", "r"⟩ "T" (some "n")
      [("p", .jsonFile ⟨some "0.9.0", none⟩),
       ("l", .jsonFile ⟨none, some [⟨"1.0.0", "t", none⟩]⟩)]
      ⟨0, 9, 0⟩ ⟨none, some [⟨"1.0.0", "t", none⟩]⟩ [⟨⟨1, 0, 0⟩, "t", none⟩]
      (by decide) (by decide) (by decide)).1 ⟨⟨1, 0, 0⟩, "t", none⟩ (by decide) (by decide)
  · exact (claim_C6_add_current_version ⟨"p", "l", "r"⟩ "T" (some "n")
      [("p", .jsonFile ⟨some "1.0.0", none⟩),
       ("l", .jsonFile ⟨none, some [⟨"1.0.0", "t", none⟩]⟩)]
      ⟨1, 0, 0⟩ ⟨none, some [⟨"1.0.0", "t", none⟩]⟩ [⟨⟨1, 0, 0⟩, "t", none⟩]
      (by decide) (by decide) (by decide)).2.1 ⟨⟨1, 0, 0⟩, "t", none⟩ (by decide) (by decide)
  · exact (claim_C6_add_current_version ⟨"p", "l", "r"⟩ "T" (some "n")
      [("p", .jsonFile ⟨some "2.0.0", none⟩),
       ("l", .jsonFile ⟨none, some [⟨"1.0.0", "t", none⟩]⟩)]
      ⟨2, 0, 0⟩ ⟨none, some [⟨"1.0.0", "t", none⟩]⟩ [⟨⟨1, 0, 0⟩, "t", none⟩]
      (by decide) (by decide) (by decide)).2.2.1
      (fun le hle => by cases hle; decide)
  · exact (claim_C6_add_current_version ⟨"p", "l", "r"⟩ "T" (some "n")
      [("p", .jsonFile ⟨some "1.0.0", none⟩),
       ("l", .jsonFile ⟨none, some [⟨"1.0.0", "t", none⟩]⟩)]
      ⟨1, 0, 0⟩ ⟨none, some [⟨"1.0.0", "t", none⟩]⟩ [⟨⟨1, 0, 0⟩, "t", none⟩]
      (by decide) (by decide) (by decide)).2.2.2 ⟨⟨1, 0, 0⟩, "t", none⟩ (by decide) (by decide)

/-- C5 counterexample: the claim fixes the appended notes as
`"initial recorded version"` and `"detected external version change"`.  On an
empty history the code appends notes `"Initial recorded version"`, and on an
externally raised manifest it appends `"Detected a new version set in
package.json outside of a \"bump\" command"` — neither equals the claimed
string. -/
theorem claim_C5_counterexample :
    (VersionManager.ensureCurrentVersionValid ⟨"p", "l", "r"⟩ "T"
        [("p", .jsonFile ⟨some "1.0.0", none⟩)]).2.1.read "l"
      = some (.jsonFile ⟨none, some [⟨"1.0.0", "T", some "Initial recorded version"⟩]⟩) ∧
    some "Initial recorded version" ≠ some "initial recorded version" ∧
    (VersionManager.ensureCurrentVersionValid ⟨"p", "l", "r"⟩ "T"
        [("p", .jsonFile ⟨some "2.0.0", none⟩),
         ("l", .jsonFile ⟨none, some [⟨"1.0.0", "t", none⟩]⟩)]).2.1.read "l"
      = some (.jsonFile ⟨none, some [⟨"1.0.0", "t", none⟩, ⟨"2.0.0", "T",
          some "Detected a new version set in package.json outside of a \"bump\" command"⟩]⟩) ∧
    some "Detected a new version set in package.json outside of a \"bump\" command"
      ≠ some "detected external version change" := by
  exact ⟨by decide, by decide, by decide, by decide⟩

/-- C5 (amended): `ensureCurrentVersionValid` reconciles by exactly the
claimed case split — empty history appends the current version as first
entry, a regression raises `VersionRegression`, a greater current version
appends a new entry, an equal one writes nothing — except that the appended
notes are the code's strings `"Initial recorded version"` and `"Detected a
new version set in package.json outside of a \"bump\" command"`.  With the
manifest and log stored at distinct paths, a second call right after a
successful one performs no write. -/
theorem claim_C5_ensure_current_version_valid (vm : VersionManager) (now : String)
    (fs : FS) (cv : SemVer) (doc : Doc) (hist : List VEntry)
    (hcv : getCurrentVersionE vm fs = .ok cv)
    (hdoc : readLogE vm fs = .ok doc)
    (hval : validateAndRepairLog (doc.history.getD []) = .ok hist) :
    (hist.getLast? = none →
      vm.ensureCurrentVersionValid now fs =
        (.ok (), fs.write vm.versionLogPath (.jsonFile (writeBackDoc doc
            (hist ++ [⟨cv, now, some "Initial recorded version"⟩]))),
          [(vm.versionLogPath, .jsonFile (writeBackDoc doc
            (hist ++ [⟨cv, now, some "Initial recorded version"⟩])))])) ∧
    (∀ le, hist.getLast? = some le → compareVersions cv le.version < 0 →
      vm.ensureCurrentVersionValid now fs =
        (.error (.versionRegression cv.render le.version.render), fs, [])) ∧
    (∀ le, hist.getLast? = some le → 0 < compareVersions cv le.version →
      vm.ensureCurrentVersionValid now fs =
        (.ok (), fs.write vm.versionLogPath (.jsonFile (writeBackDoc doc
            (hist ++ [⟨cv, now,
              some "Detected a new version set in package.json outside of a \"bump\" command"⟩]))),
          [(vm.versionLogPath, .jsonFile (writeBackDoc doc
            (hist ++ [⟨cv, now,
              some "Detected a new version set in package.json outside of a \"bump\" command"⟩])))])) ∧
    (∀ le, hist.getLast? = some le → le.version = cv →
      vm.ensureCurrentVersionValid now fs = (.ok (), fs, [])) ∧
    (vm.packageJsonPath ≠ vm.versionLogPath →
      ∀ fs2 w, vm.ensureCurrentVersionValid now fs = (.ok (), fs2, w) →
        ∀ now2, vm.ensureCurrentVersionValid now2 fs2 = (.ok (), fs2, [])) := by
  have hrun := ensure_run vm now fs cv doc hist hcv hdoc hval
  refine ⟨?_, ?_, ?_, ?_, ?_⟩
  · intro hlast
    rw [hrun, hlast]
  · intro le hlast hlt
    rw [hrun, hlast]
    dsimp only
    rw [if_pos hlt]
  · intro le hlast hgt
    rw [hrun, hlast]
    dsimp only
    rw [if_neg (by omega), if_pos hgt]
  · intro le hlast heq
    have h0 : compareVersions cv le.version = 0 :=
      compareVersions_eq_zero_iff.mpr heq.symm
    rw [hrun, hlast]
    dsimp only
    rw [if_neg (by omega), if_neg (by omega)]
  · intro hne fs2 w hok now2
    rw [hrun] at hok
    cases hlast : hist.getLast? with
    | none =>
      rw [hlast] at hok
      dsimp only at hok
      cases hok
      have hcv2 : getCurrentVersionE vm
          (fs.write vm.versionLogPath (.jsonFile (writeBackDoc doc
            (hist ++ [⟨cv, now, some "Initial recorded version"⟩])))) = .ok cv := by
        rw [getCurrentVersionE_write_log vm hne]
        exact hcv
      have hdoc2 := readLogE_after_write vm fs doc
        (hist ++ [⟨cv, now, some "Initial recorded version"⟩])
      have hval2 := appended_validates doc hist hval
        ⟨cv, now, some "Initial recorded version"⟩
        (by intro le hle; rw [hlast] at hle; cases hle)
      have hrun2 := ensure_run vm now2 _ cv _ _ hcv2 hdoc2 hval2
      rw [hrun2, List.getLast?_concat]
      dsimp only
      rw [if_neg (by rw [compareVersions_self]; omega),
        if_neg (by rw [compareVersions_self]; omega)]
    | some le =>
      rw [hlast] at hok
      dsimp only at hok
      by_cases hlt : compareVersions cv le.version < 0
      · rw [if_pos hlt] at hok
        cases hok
      · rw [if_neg hlt] at hok
        by_cases hgt : compareVersions cv le.version > 0
        · rw [if_pos hgt] at hok
          cases hok
          have hcv2 : getCurrentVersionE vm
              (fs.write vm.versionLogPath (.jsonFile (writeBackDoc doc
                (hist ++ [⟨cv, now, some
                  "Detected a new version set in package.json outside of a \"bump\" command"⟩])))) = .ok cv := by
            rw [getCurrentVersionE_write_log vm hne]
            exact hcv
          have hdoc2 := readLogE_after_write vm fs doc
            (hist ++ [⟨cv, now, some
              "Detected a new version set in package.json outside of a \"bump\" command"⟩])
          have hval2 := appended_validates doc hist hval
            ⟨cv, now, some
              "Detected a new version set in package.json outside of a \"bump\" command"⟩
            (by
              intro le' hle'
              rw [hlast] at hle'
              cases hle'
              exact le_of_lt hgt)
          have hrun2 := ensure_run vm now2 _ cv _ _ hcv2 hdoc2 hval2
          rw [hrun2, List.getLast?_concat]
          dsimp only
          rw [if_neg (by rw [compareVersions_self]; omega),
            if_neg (by rw [compareVersions_self]; omega)]
        · rw [if_neg hgt] at hok
          cases hok
          have hrun2 := ensure_run vm now2 fs cv doc hist hcv hdoc hval
          rw [hrun2, hlast]
          dsimp only
          rw [if_neg hlt, if_neg hgt]

/-- C5 witness: on an empty log and manifest `1.0.0`, the first call appends
the initial entry and the second call writes nothing. -/
theorem claim_C5_witness :
    VersionManager.ensureCurrentVersionValid ⟨"p", "l", "r"⟩ "T"
        [("p", .jsonFile ⟨some "1.0.0", none⟩)]
      = (.ok (),
         [("p", .jsonFile ⟨some "1.0.0", none⟩),
          ("l", .jsonFile ⟨none, some [⟨"1.0.0", "T", some "Initial recorded version"⟩]⟩)],
         [("l", .jsonFile ⟨none, some [⟨"1.0.0", "T", some "Initial recorded version"⟩]⟩)]) ∧
    VersionManager.ensureCurrentVersionValid ⟨"p", "l", "r"⟩ "T2"
        [("p", .jsonFile ⟨some "1.0.0", none⟩),
         ("l", .jsonFile ⟨none, some [⟨"1.0.0", "T", some "Initial recorded version"⟩]⟩)]
      = (.ok (),
         [("p", .jsonFile ⟨some "1.0.0", none⟩),
          ("l", .jsonFile ⟨none, some [⟨"1.0.0", "T", some "Initial recorded version"⟩]⟩)],
         []) := by
  constructor
  · exact (claim_C5_ensure_current_version_valid ⟨"p", "l", "r"⟩ "T"
      [("p", .jsonFile ⟨some "1.0.0", none⟩)] ⟨1, 0, 0⟩ ⟨none, some []⟩ []
      (by decide) (by decide) (by decide)).1 rfl
  · exact (claim_C5_ensure_current_version_valid ⟨"p", "l", "r"⟩ "T"
      [("p", .jsonFile ⟨some "1.0.0", none⟩)] ⟨1, 0, 0⟩ ⟨none, some []⟩ []
      (by decide) (by decide) (by decide)).2.2.2.2 (by decide)
      [("p", .jsonFile ⟨some "1.0.0", none⟩),
       ("l", .jsonFile ⟨none, some [⟨"1.0.0", "T", some "Initial recorded version"⟩]⟩)]
      [("l", .jsonFile ⟨none, some [⟨"1.0.0", "T", some "Initial recorded version"⟩]⟩)]
      (by decide) "T2"

theorem addCurrentVersion_fst_ne_noRef (vm : VersionManager) (now : String)
    (notes : Option String) (fs : FS) :
    (vm.addCurrentVersion now notes fs).1 ≠ .error .noReferencesUpdated := by
  intro h
  exact addCurrentVersion_ne_noRef vm now notes fs
    (vm.addCurrentVersion now notes fs).2.1 (vm.addCurrentVersion now notes fs).2.2
    (by rw [← h])

/-- C1: `incrementVersion` computes the recommended next version, hands it to
the reference synchronizer, raises `NoReferencesUpdated` exactly when the
returned `FileUpdate` list is empty, and otherwise finishes by running
`addCurrentVersion(notes)` on the synchronized state — which, when it
succeeds, appends one new log entry for the manifest version. -/
theorem claim_C1_increment_version (vm : VersionManager) (now : String) (level : Level)
    (notes : Option String) (fs : FS) (v : SemVer) (us : List FileUpdate)
    (fs1 : FS) (w1 : List (String × FileData))
    (hrec : recommendNextVersionE vm level fs = .ok v)
    (hdet : detectAndUpdateVersion vm.projectRoot v.render fs = (.ok us, fs1, w1)) :
    (us = [] →
      vm.incrementVersion now level notes fs = (.error .noReferencesUpdated, fs1, w1)) ∧
    (us ≠ [] →
      vm.incrementVersion now level notes fs =
        ((vm.addCurrentVersion now notes fs1).1, (vm.addCurrentVersion now notes fs1).2.1,
          w1 ++ (vm.addCurrentVersion now notes fs1).2.2)) ∧
    (∀ fsr wr,
      vm.incrementVersion now level notes fs = (.error .noReferencesUpdated, fsr, wr) →
      us = []) ∧
    (us ≠ [] → ∀ fs2 w2, vm.addCurrentVersion now notes fs1 = (.ok (), fs2, w2) →
      vm.incrementVersion now level notes fs = (.ok (), fs2, w1 ++ w2) ∧
      ∃ cv doc hist, getCurrentVersionE vm fs1 = .ok cv ∧ readLogE vm fs1 = .ok doc ∧
        validateAndRepairLog (doc.history.getD []) = .ok hist ∧
        fs2.read vm.versionLogPath =
          some (.jsonFile (writeBackDoc doc (hist ++ [⟨cv, now, notes⟩])))) := by
  have hrun : vm.incrementVersion now level notes fs =
      if us.length = 0 then (.error .noReferencesUpdated, fs1, w1)
      else ((vm.addCurrentVersion now notes fs1).1, (vm.addCurrentVersion now notes fs1).2.1,
        w1 ++ (vm.addCurrentVersion now notes fs1).2.2) := by
    unfold VersionManager.incrementVersion
    rw [hrec]
    dsimp only
    rw [hdet]
  have hlen : us ≠ [] → ¬ us.length = 0 := by
    intro h h0
    exact h (List.eq_nil_of_length_eq_zero h0)
  refine ⟨?_, ?_, ?_, ?_⟩
  · intro h
    rw [hrun, if_pos (by rw [h]; rfl)]
  · intro h
    rw [hrun, if_neg (hlen h)]
  · intro fsr wr heq
    by_cases hus : us = []
    · exact hus
    · rw [hrun, if_neg (hlen hus)] at heq
      have h1 : (vm.addCurrentVersion now notes fs1).1 = .error .noReferencesUpdated :=
        congrArg Prod.fst heq
      exact absurd h1 (addCurrentVersion_fst_ne_noRef vm now notes fs1)
  · intro hus fs2 w2 hadd
    constructor
    · rw [hrun, if_neg (hlen hus), hadd]
    · rcases addCurrentVersion_cases vm now notes fs1 with ⟨e, h⟩ |
        ⟨cv, doc, hist, h1, h2, h3, -, h⟩
      · rw [h] at hadd
        cases hadd
      · rw [h] at hadd
        cases hadd
        exact ⟨cv, doc, hist, h1, h2, h3, by rw [FS.read_write_self]⟩

/-- C1 witness: with the ledger's manifest stored apart from the synchronized
project files, a bump from an empty log recommends `0.1.0`, rewrites the one
out-of-date reference and appends the log entry; when no file is behind, the
update list is empty and the bump raises `NoReferencesUpdated`. -/
theorem claim_C1_witness :
    VersionManager.incrementVersion ⟨"m.json", "log.json", "proj"⟩ "T" .minor (some "n")
        [("m.json", .jsonFile ⟨some "0.1.0", none⟩), ("proj/README.md", .textFile "v0.0.1")]
      = (.ok (),
         [("m.json", .jsonFile ⟨some "0.1.0", none⟩),
          ("proj/README.md", .textFile "0.0.10.1.0"),
          ("log.json", .jsonFile ⟨none, some [⟨"0.1.0", "T", some "n"⟩]⟩)],
         [("proj/README.md", .textFile "0.0.10.1.0"),
          ("log.json", .jsonFile ⟨none, some [⟨"0.1.0", "T", some "n"⟩]⟩)]) ∧
    VersionManager.incrementVersion ⟨"m.json", "log.json", "proj"⟩ "T" .minor (some "n")
        [("m.json", .jsonFile ⟨some "0.1.0", none⟩), ("proj/README.md", .textFile "v0.1.0")]
      = (.error .noReferencesUpdated,
         [("m.json", .jsonFile ⟨some "0.1.0", none⟩), ("proj/README.md", .textFile "v0.1.0")],
         []) := by
  constructor
  · exact ((claim_C1_increment_version ⟨"m.json", "log.json", "proj"⟩ "T" .minor (some "n")
      [("m.json", .jsonFile ⟨some "0.1.0", none⟩), ("proj/README.md", .textFile "v0.0.1")]
      ⟨0, 1, 0⟩ [⟨"proj/README.md", "0.0.1", "0.1.0"⟩]
      [("m.json", .jsonFile ⟨some "0.1.0", none⟩), ("proj/README.md", .textFile "0.0.10.1.0")]
      [("proj/README.md", .textFile "0.0.10.1.0")]
      (by decide) (by decide)).2.2.2 (by decide)
      [("m.json", .jsonFile ⟨some "0.1.0", none⟩),
       ("proj/README.md", .textFile "0.0.10.1.0"),
       ("log.json", .jsonFile ⟨none, some [⟨"0.1.0", "T", some "n"⟩]⟩)]
      [("log.json", .jsonFile ⟨none, some [⟨"0.1.0", "T", some "n"⟩]⟩)] (by decide)).1
  · exact (claim_C1_increment_version ⟨"m.json", "log.json", "proj"⟩ "T" .minor (some "n")
      [("m.json", .jsonFile ⟨some "0.1.0", none⟩), ("proj/README.md", .textFile "v0.1.0")]
      ⟨0, 1, 0⟩ []
      [("m.json", .jsonFile ⟨some "0.1.0", none⟩), ("proj/README.md", .textFile "v0.1.0")]
      [] (by decide) (by decide)).1 rfl

/-- C7: every read path — `listHistory`, `validateHistory`,
`recommendNextVersion`, `ensureCurrentVersionValid`, `addCurrentVersion` —
runs `validateAndRepairLog` over the full persisted history, and on a history
whose first out-of-order entry sits at position `j` each of them fails with
the same `historicalRegression` error naming position `j`, without writing. -/
theorem claim_C7_read_paths_validate (vm : VersionManager) (fs : FS) (now : String)
    (notes : Option String) (level : Level) (doc : Doc) (h : List LogEntry)
    (vs : List SemVer) (j : Nat) (cv : SemVer)
    (hdoc : readLogE vm fs = .ok doc) (hh : doc.history = some h)
    (hp : parseVersions h = some vs)
    (hv : FirstViol none vs j)
    (hcv : getCurrentVersionE vm fs = .ok cv) :
    ∃ v lv, 1 ≤ j ∧ vs.get? j = some v ∧ vs.get? (j - 1) = some lv ∧
      compareVersions v lv < 0 ∧
      validateAndRepairLog h = .error (.historicalRegression j v.render lv.render) ∧
      vm.listHistory fs = (.error (.historicalRegression j v.render lv.render), fs, []) ∧
      vm.validateHistory fs = (.error (.historicalRegression j v.render lv.render), fs, []) ∧
      vm.recommendNextVersion level fs
        = (.error (.historicalRegression j v.render lv.render), fs, []) ∧
      vm.ensureCurrentVersionValid now fs
        = (.error (.historicalRegression j v.render lv.render), fs, []) ∧
      vm.addCurrentVersion now notes fs
        = (.error (.historicalRegression j v.render lv.render), fs, []) := by
  obtain ⟨v, lv, hget, hlt, hpred, hrep⟩ := repairAux_firstViol h vs none 0 j hp hv
  have hj : 1 ≤ j := by
    cases hv
    omega
  have hvalerr : validateAndRepairLog h = .error (.historicalRegression j v.render lv.render) := by
    have : (0 : Nat) + j = j := Nat.zero_add j
    rw [← this]
    exact hrep
  have hpred1 : vs.get? (j - 1) = some lv := by
    cases hj' : j with
    | zero => omega
    | succ k =>
      rw [hj'] at hpred
      simpa using hpred
  have hval' : validateAndRepairLog (doc.history.getD [])
      = .error (.historicalRegression j v.render lv.render) := by
    rw [hh]
    exact hvalerr
  refine ⟨v, lv, hj, hget, hpred1, hlt, hvalerr, ?_, ?_, ?_, ?_, ?_⟩
  · unfold VersionManager.listHistory
    rw [hdoc]
    dsimp only
    rw [hval']
  · unfold VersionManager.validateHistory
    rw [hdoc]
    dsimp only
    rw [hval']
  · unfold VersionManager.recommendNextVersion recommendNextVersionE
    rw [hdoc]
    dsimp only
    rw [hval']
  · unfold VersionManager.ensureCurrentVersionValid
    rw [hcv]
    dsimp only
    rw [hdoc]
    dsimp only
    rw [hval']
  · unfold VersionManager.addCurrentVersion
    rw [hcv]
    dsimp only
    rw [hdoc]
    dsimp only
    rw [hval']

/-- C7 witness: on the log history `[1.0.0, 0.5.0]`, each of the five read
paths fails with `historicalRegression` at position 1. -/
theorem claim_C7_witness :
    VersionManager.listHistory ⟨"p", "l", "r"⟩
        [("p", .jsonFile ⟨some "1.0.0", none⟩),
         ("l", .jsonFile ⟨none, some [⟨"1.0.0", "t1", none⟩, ⟨"0.5.0", "t2", none⟩]⟩)]
      = (.error (.historicalRegression 1 "0.5.0" "1.0.0"),
         [("p", .jsonFile ⟨some "1.0.0", none⟩),
          ("l", .jsonFile ⟨none, some [⟨"1.0.0", "t1", none⟩, ⟨"0.5.0", "t2", none⟩]⟩)], []) ∧
    VersionManager.validateHistory ⟨"p", "l", "r"⟩
        [("p", .jsonFile ⟨some "1.0.0", none⟩),
         ("l", .jsonFile ⟨none, some [⟨"1.0.0", "t1", none⟩, ⟨"0.5.0", "t2", none⟩]⟩)]
      = (.error (.historicalRegression 1 "0.5.0" "1.0.0"),
         [("p", .jsonFile ⟨some "1.0.0", none⟩),
          ("l", .jsonFile ⟨none, some [⟨"1.0.0", "t1", none⟩, ⟨"0.5.0", "t2", none⟩]⟩)], []) ∧
    VersionManager.recommendNextVersion ⟨"p", "l", "r"⟩ .patch
        [("p", .jsonFile ⟨some "1.0.0", none⟩),
         ("l", .jsonFile ⟨none, some [⟨"1.0.0", "t1", none⟩, ⟨"0.5.0", "t2", none⟩]⟩)]
      = (.error (.historicalRegression 1 "0.5.0" "1.0.0"),
         [("p", .jsonFile ⟨some "1.0.0", none⟩),
          ("l", .jsonFile ⟨none, some [⟨"1.0.0", "t1", none⟩, ⟨"0.5.0", "t2", none⟩]⟩)], []) ∧
    VersionManager.ensureCurrentVersionValid ⟨"p", "l", "r"⟩ "T"
        [("p", .jsonFile ⟨some "1.0.0", none⟩),
         ("l", .jsonFile ⟨none, some [⟨"1.0.0", "t1", none⟩, ⟨"0.5.0", "t2", none⟩]⟩)]
      = (.error (.historicalRegression 1 "0.5.0" "1.0.0"),
         [("p", .jsonFile ⟨some "1.0.0", none⟩),
          ("l", .jsonFile ⟨none, some [⟨"1.0.0", "t1", none⟩, ⟨"0.5.0", "t2", none⟩]⟩)], []) ∧
    VersionManager.addCurrentVersion ⟨"p", "l", "r"⟩ "T" (some "n")
        [("p", .jsonFile ⟨some "1.0.0", none⟩),
         ("l", .jsonFile ⟨none, some [⟨"1.0.0", "t1", none⟩, ⟨"0.5.0", "t2", none⟩]⟩)]
      = (.error (.historicalRegression 1 "0.5.0" "1.0.0"),
         [("p", .jsonFile ⟨some "1.0.0", none⟩),
          ("l", .jsonFile ⟨none, some [⟨"1.0.0", "t1", none⟩, ⟨"0.5.0", "t2", none⟩]⟩)], []) := by
  obtain ⟨v, lv, -, hget, hpred, -, -, hlist, hvalh, hrec, hens, hadd⟩ :=
    claim_C7_read_paths_validate ⟨"p", "l", "r"⟩
      [("p", .jsonFile ⟨some "1.0.0", none⟩),
       ("l", .jsonFile ⟨none, some [⟨"1.0.0", "t1", none⟩, ⟨"0.5.0", "t2", none⟩]⟩)]
      "T" (some "n") .patch
      ⟨none, some [⟨"1.0.0", "t1", none⟩, ⟨"0.5.0", "t2", none⟩]⟩
      [⟨"1.0.0", "t1", none⟩, ⟨"0.5.0", "t2", none⟩]
      [⟨1, 0, 0⟩, ⟨0, 5, 0⟩] 1 ⟨1, 0, 0⟩
      (by decide) rfl (by decide)
      (FirstViol.there (fun lv h => by cases h) (FirstViol.here (by decide)))
      (by decide)
  cases hget
  cases hpred
  exact ⟨hlist, hvalh, hrec, hens, hadd⟩

/-- C4 counterexample: the claim gates on the numeric `X.Y.Z` pattern, but
the code gates on `semver.valid`.  `"01.0.0"` matches `^\d+\.\d+\.\d+$` (so
the claim says the call proceeds to the per-file updates), yet the call
raises `InvalidSemanticVersion` — the library rejects leading zeros — even
with an out-of-date reference file present; conversely `"1.0.0-beta"` fails
the numeric pattern (the claim says the call raises) yet passes the gate. -/
theorem claim_C4_counterexample :
    parseSemVer "01.0.0" = some ⟨1, 0, 0⟩ ∧
    semverValid "01.0.0" = false ∧
    detectAndUpdateVersion "proj" "01.0.0" [("proj/README.md", .textFile "v0.0.1")]
      = (.error (.invalidSemverInput "01.0.0"),
         [("proj/README.md", .textFile "v0.0.1")], []) ∧
    parseSemVer "1.0.0-beta" = none ∧
    semverValid "1.0.0-beta" = true := by
  exact ⟨by decide, by decide, by decide, by decide, by decide⟩

/-- C4 (amended): `detectAndUpdateVersion` raises `InvalidSemanticVersion`
before touching any file exactly when `v` fails the `semver` library's
validity check (not the numeric `X.Y.Z` pattern); on every normally
completing run, a registry file has a `FileUpdate` recorded — and is written —
if and only if it exists and its detected embedded version is semver-valid
and strictly below `v`; a missing file contributes nothing and is no error,
and the returned list is exactly the applied updates. -/
theorem claim_C4_detect_and_update (root v : String) (fs : FS) :
    (semverValid v = false →
      detectAndUpdateVersion root v fs = (.error (.invalidSemverInput v), fs, [])) ∧
    (∀ us fs2 w, detectAndUpdateVersion root v fs = (.ok us, fs2, w) →
      semverValid v = true ∧
      (∀ name strat, (name, strat) ∈
          [("package.json", Strategy.packageJson), ("README.md", Strategy.readme)] →
        ((∃ u ∈ us, u.filePath = pathJoin root name) ↔
          ∃ content old, fs.read (pathJoin root name) = some content ∧
            strat.detect content = .ok (some old) ∧
            (semverValid old && svLtStr old v) = true)) ∧
      (∀ u ∈ us, u.newVersion = v) ∧
      w.map Prod.fst = us.map FileUpdate.filePath) ∧
    (semverValid v = true → fs.read (pathJoin root "package.json") = none →
      fs.read (pathJoin root "README.md") = none →
      detectAndUpdateVersion root v fs = (.ok [], fs, [])) := by
  have hne := registry_paths_ne root
  refine ⟨?_, ?_, ?_⟩
  · intro hf
    unfold detectAndUpdateVersion
    rw [if_neg (by simp [hf])]
  · intro us fs2 w hrun
    unfold detectAndUpdateVersion at hrun
    split at hrun
    case isFalse => cases hrun
    case isTrue hval =>
    refine ⟨hval, ?_⟩
    rcases updateOneFile_cases root v "package.json" .packageJson fs with
      ⟨h1, hn1⟩ | ⟨c1, o1, d1, hr1, hd1, hg1, hp1, h1⟩ | ⟨e1, h1⟩ <;> rw [h1] at hrun <;>
      dsimp only at hrun
    · -- package.json skipped
      rcases updateOneFile_cases root v "README.md" .readme fs with
        ⟨h2, hn2⟩ | ⟨c2, o2, d2, hr2, hd2, hg2, hp2, h2⟩ | ⟨e2, h2⟩ <;> rw [h2] at hrun <;>
        dsimp only at hrun <;> cases hrun
      · refine ⟨?_, ?_, ?_⟩
        · intro name strat hmem
          simp at hmem
          rcases hmem with ⟨rfl, rfl⟩ | ⟨rfl, rfl⟩
          · constructor
            · rintro ⟨u, hu, -⟩
              simp at hu
            · intro hex
              exact absurd hex hn1
          · constructor
            · rintro ⟨u, hu, -⟩
              simp at hu
            · intro hex
              exact absurd hex hn2
        · intro u hu
          simp at hu
        · rfl
      · refine ⟨?_, ?_, ?_⟩
        · intro name strat hmem
          simp at hmem
          rcases hmem with ⟨rfl, rfl⟩ | ⟨rfl, rfl⟩
          · constructor
            · rintro ⟨u, hu, hup⟩
              simp at hu
              subst hu
              exact absurd hup.symm hne
            · intro hex
              exact absurd hex hn1
          · constructor
            · intro _h
              exact ⟨c2, o2, hr2, hd2, hg2⟩
            · intro _h
              refine ⟨⟨pathJoin root "README.md", o2, v⟩, by simp, rfl⟩
        · intro u hu
          simp at hu
          subst hu
          rfl
        · rfl
    · -- package.json updated
      have hfix : ∀ q, q ≠ pathJoin root "package.json" →
          (fs.write (pathJoin root "package.json") d1).read q = fs.read q :=
        fun q hq => FS.read_write_ne fs _ q d1 hq
      rcases updateOneFile_cases root v "README.md" .readme
          (fs.write (pathJoin root "package.json") d1) with
        ⟨h2, hn2⟩ | ⟨c2, o2, d2, hr2, hd2, hg2, hp2, h2⟩ | ⟨e2, h2⟩ <;> rw [h2] at hrun <;>
        dsimp only at hrun <;> cases hrun
      · refine ⟨?_, ?_, ?_⟩
        · intro name strat hmem
          simp at hmem
          rcases hmem with ⟨rfl, rfl⟩ | ⟨rfl, rfl⟩
          · constructor
            · intro _h
              exact ⟨c1, o1, hr1, hd1, hg1⟩
            · intro _h
              refine ⟨⟨pathJoin root "package.json", o1, v⟩, by simp, rfl⟩
          · constructor
            · rintro ⟨u, hu, hup⟩
              simp at hu
              subst hu
              exact absurd hup hne
            · intro hex
              apply absurd _ hn2
              obtain ⟨c2, o2, hr2, hd2, hg2⟩ := hex
              exact ⟨c2, o2, by rw [hfix _ (Ne.symm hne)]; exact hr2, hd2, hg2⟩
        · intro u hu
          simp at hu
          subst hu
          rfl
        · rfl
      · refine ⟨?_, ?_, ?_⟩
        · intro name strat hmem
          simp at hmem
          rcases hmem with ⟨rfl, rfl⟩ | ⟨rfl, rfl⟩
          · constructor
            · intro _h
              exact ⟨c1, o1, hr1, hd1, hg1⟩
            · intro _h
              refine ⟨⟨pathJoin root "package.json", o1, v⟩, by simp, rfl⟩
          · constructor
            · intro _h
              refine ⟨c2, o2, ?_, hd2, hg2⟩
              rw [← hfix _ (Ne.symm hne)]
              exact hr2
            · intro _h
              refine ⟨⟨pathJoin root "README.md", o2, v⟩, by simp, rfl⟩
        · intro u hu
          simp at hu
          rcases hu with hu | hu <;> subst hu <;> rfl
        · rfl
    · cases hrun
  · intro hval hm1 hm2
    unfold detectAndUpdateVersion
    rw [if_pos hval]
    rcases updateOneFile_cases root v "package.json" .packageJson fs with
      ⟨h1, -⟩ | ⟨c1, o1, d1, hr1, -, -, -, h1⟩ | ⟨e1, h1⟩
    · rw [h1]
      dsimp only
      rcases updateOneFile_cases root v "README.md" .readme fs with
        ⟨h2, -⟩ | ⟨c2, o2, d2, hr2, -, -, -, h2⟩ | ⟨e2, h2⟩
      · rw [h2]
        rfl
      · rw [hm2] at hr2
        cases hr2
      · rw [h2]
        exfalso
        revert h2
        unfold updateOneFile
        rw [hm2]
        intro h2
        cases h2
    · rw [hm1] at hr1
      cases hr1
    · exfalso
      revert h1
      unfold updateOneFile
      rw [hm1]
      intro h1
      cases h1

/-- C4 witness: a semver-invalid target (`"1.0"`) raises before any file is
touched; with both registry files missing the call succeeds with an empty
list; and on a manifest at `1.0.0` with target `1.1.0` the update for
`package.json` is recorded with exactly one matching write. -/
theorem claim_C4_witness :
    detectAndUpdateVersion "proj" "1.0" [("proj/README.md", .textFile "v0.0.1")]
      = (.error (.invalidSemverInput "1.0"), [("proj/README.md", .textFile "v0.0.1")], []) ∧
    detectAndUpdateVersion "proj" "1.1.0" [] = (.ok [], [], []) ∧
    (∃ u ∈ [FileUpdate.mk "proj/package.json" "1.0.0" "1.1.0"],
      u.filePath = pathJoin "proj" "package.json") ∧
    ([("proj/package.json", FileData.textFile "1.1.0")]).map Prod.fst
      = ([FileUpdate.mk "proj/package.json" "1.0.0" "1.1.0"]).map FileUpdate.filePath := by
  refine ⟨?_, ?_, ?_, ?_⟩
  · exact (claim_C4_detect_and_update "proj" "1.0"
      [("proj/README.md", .textFile "v0.0.1")]).1 (by decide)
  · exact (claim_C4_detect_and_update "proj" "1.1.0" []).2.2 (by decide) rfl rfl
  · exact (((claim_C4_detect_and_update "proj" "1.1.0"
      [("proj/package.json", .jsonFile ⟨some "1.0.0", none⟩),
       ("proj/README.md", .textFile "no match")]).2.1
      [⟨"proj/package.json", "1.0.0", "1.1.0"⟩]
      [("proj/package.json", .textFile "1.1.0"), ("proj/README.md", .textFile "no match")]
      [("proj/package.json", .textFile "1.1.0")] (by decide)).2.1
      "package.json" .packageJson (by simp)).mpr
      ⟨.jsonFile ⟨some "1.0.0", none⟩, "1.0.0", by decide, by decide, by decide⟩
  · exact ((claim_C4_detect_and_update "proj" "1.1.0"
      [("proj/package.json", .jsonFile ⟨some "1.0.0", none⟩),
       ("proj/README.md", .textFile "no match")]).2.1
      [⟨"proj/package.json", "1.0.0", "1.1.0"⟩]
      [("proj/package.json", .textFile "1.1.0"), ("proj/README.md", .textFile "no match")]
      [("proj/package.json", .textFile "1.1.0")] (by decide)).2.2.2

/-- C8 counterexample: the claim says entries are appended only by
`addCurrentVersion`/`incrementVersion`, but `ensureCurrentVersionValid` also
appends: starting from a state with no log file, one `ensureCurrentVersionValid`
call leaves a log whose history has gained an entry. -/
theorem claim_C8_counterexample :
    (VersionManager.ensureCurrentVersionValid ⟨"p", "l", "r"⟩ "T"
        [("p", .jsonFile ⟨some "1.0.0", none⟩)]).2.1.read "l"
      = some (.jsonFile ⟨none, some [⟨"1.0.0", "T", some "Initial recorded version"⟩]⟩) ∧
    FS.read [("p", FileData.jsonFile ⟨some "1.0.0", none⟩)] "l" = none := by
  exact ⟨by decide, by decide⟩

/-- C8 (amended): the persisted log is append-only across the ledger
operations, with `ensureCurrentVersionValid` counted among the appenders
alongside `addCurrentVersion` and `incrementVersion`: the read paths never
write; an absent log file reads as an empty history without creating the
file; repair only re-normalizes each entry's version text in place, never
reordering, dropping or rewriting timestamps or notes; and every state change
of the log file replaces it with the normalized old history plus exactly one
appended entry. -/
theorem claim_C8_append_only (vm : VersionManager) (now : String)
    (notes : Option String) (level : Level) (fs : FS) :
    ((vm.listHistory fs).2.1 = fs ∧ (vm.listHistory fs).2.2 = [] ∧
      (vm.validateHistory fs).2.1 = fs ∧ (vm.validateHistory fs).2.2 = [] ∧
      (vm.recommendNextVersion level fs).2.1 = fs ∧
      (vm.recommendNextVersion level fs).2.2 = []) ∧
    (fs.read vm.versionLogPath = none → readLogE vm fs = .ok ⟨none, some []⟩) ∧
    (∀ h l, validateAndRepairLog h = .ok l →
      l.length = h.length ∧
      ∀ k e, h.get? k = some e → ∃ ve, l.get? k = some ve ∧
        parseSemVer e.version = some ve.version ∧
        ve.timestamp = e.timestamp ∧ ve.notes = e.notes) ∧
    (∀ r fs2 w, vm.ensureCurrentVersionValid now fs = (r, fs2, w) →
      (fs2 = fs ∧ w = []) ∨
      ∃ doc hist e, readLogE vm fs = .ok doc ∧
        validateAndRepairLog (doc.history.getD []) = .ok hist ∧
        fs2 = fs.write vm.versionLogPath (.jsonFile (writeBackDoc doc (hist ++ [e])))) ∧
    (∀ r fs2 w, vm.addCurrentVersion now notes fs = (r, fs2, w) →
      (fs2 = fs ∧ w = []) ∨
      ∃ doc hist e, readLogE vm fs = .ok doc ∧
        validateAndRepairLog (doc.history.getD []) = .ok hist ∧
        fs2 = fs.write vm.versionLogPath (.jsonFile (writeBackDoc doc (hist ++ [e])))) ∧
    (∀ r fs2 w, vm.incrementVersion now level notes fs = (r, fs2, w) →
      vm.versionLogPath ≠ pathJoin vm.projectRoot "package.json" →
      vm.versionLogPath ≠ pathJoin vm.projectRoot "README.md" →
      fs2.read vm.versionLogPath = fs.read vm.versionLogPath ∨
      ∃ doc hist e, readLogE vm fs = .ok doc ∧
        validateAndRepairLog (doc.history.getD []) = .ok hist ∧
        fs2.read vm.versionLogPath
          = some (.jsonFile (writeBackDoc doc (hist ++ [e])))) := by
  refine ⟨⟨rfl, rfl, rfl, rfl, rfl, rfl⟩, ?_, ?_, ?_, ?_, ?_⟩
  · intro habs
    unfold readLogE
    rw [habs]
  · intro h l hval
    exact repairAux_shape h none 0 l hval
  · intro r fs2 w hrun
    rcases ensureCurrentVersionValid_cases vm now fs with ⟨e, h⟩ | h |
      ⟨cv, doc, hist, nt, -, h2, h3, -, h⟩ <;> rw [h] at hrun <;> cases hrun
    · exact Or.inl ⟨rfl, rfl⟩
    · exact Or.inl ⟨rfl, rfl⟩
    · exact Or.inr ⟨doc, hist, ⟨cv, now, some nt⟩, h2, h3, rfl⟩
  · intro r fs2 w hrun
    rcases addCurrentVersion_cases vm now notes fs with ⟨e, h⟩ |
      ⟨cv, doc, hist, -, h2, h3, -, h⟩ <;> rw [h] at hrun <;> cases hrun
    · exact Or.inl ⟨rfl, rfl⟩
    · exact Or.inr ⟨doc, hist, ⟨cv, now, notes⟩, h2, h3, rfl⟩
  · intro r fs2 w hrun hne1 hne2
    unfold VersionManager.incrementVersion at hrun
    split at hrun
    next e hrec =>
      cases hrun
      exact Or.inl rfl
    next v hrec =>
      split at hrun
      next e fs1 w1 hdet =>
        cases hrun
        left
        have hro := detectAndUpdateVersion_read_other vm.projectRoot v.render fs
          vm.versionLogPath hne1 hne2
        rw [hdet] at hro
        exact hro
      next us fs1 w1 hdet =>
        have hfs1log : fs1.read vm.versionLogPath = fs.read vm.versionLogPath := by
          have hro := detectAndUpdateVersion_read_other vm.projectRoot v.render fs
            vm.versionLogPath hne1 hne2
          rw [hdet] at hro
          exact hro
        have hreadlog : readLogE vm fs1 = readLogE vm fs := by
          unfold readLogE
          rw [hfs1log]
        split at hrun
        next hlen =>
          cases hrun
          exact Or.inl hfs1log
        next hlen =>
          rcases addCurrentVersion_cases vm now notes fs1 with ⟨e, h⟩ |
            ⟨cv, doc, hist, -, h2, h3, -, h⟩ <;> rw [h] at hrun <;> cases hrun
          · exact Or.inl hfs1log
          · right
            refine ⟨doc, hist, ⟨cv, now, notes⟩, ?_, h3, ?_⟩
            · rw [← hreadlog]
              exact h2
            · rw [FS.read_write_self]

/-- C8 witness: a no-op read (`listHistory`), a lazy empty read of an absent
log, a normalization-only repair, and a one-entry append by
`addCurrentVersion`, all at concrete states via the theorem. -/
theorem claim_C8_witness :
    (VersionManager.listHistory ⟨"p", "l", "r"⟩
      [("p", .jsonFile ⟨some "1.0.0", none⟩)]).2.2 = [] ∧
    readLogE ⟨"p", "l", "r"⟩ [("p", .jsonFile ⟨some "1.0.0", none⟩)]
      = .ok ⟨none, some []⟩ ∧
    (∀ k e, ([⟨"01.2.3", "t", none⟩] : List LogEntry).get? k = some e →
      ∃ ve, ([⟨⟨1, 2, 3⟩, "t", none⟩] : List VEntry).get? k = some ve ∧
        parseSemVer e.version = some ve.version ∧
        ve.timestamp = e.timestamp ∧ ve.notes = e.notes) ∧
    ((VersionManager.addCurrentVersion ⟨"p", "l", "r"⟩ "T" (some "n")
        [("p", .jsonFile ⟨some "2.0.0", none⟩),
         ("l", .jsonFile ⟨none, some [⟨"1.0.0", "t", none⟩]⟩)]).2.1
      = [("p", .jsonFile ⟨some "2.0.0", none⟩),
         ("l", .jsonFile ⟨none, some [⟨"1.0.0", "t", none⟩]⟩)] ∧
        ((VersionManager.addCurrentVersion ⟨"p", "l", "r"⟩ "T" (some "n")
          [("p", .jsonFile ⟨some "2.0.0", none⟩),
           ("l", .jsonFile ⟨none, some [⟨"1.0.0", "t", none⟩]⟩)]).2.2 = []) ∨
      ∃ doc hist e,
        readLogE ⟨"p", "l", "r"⟩
          [("p", .jsonFile ⟨some "2.0.0", none⟩),
           ("l", .jsonFile ⟨none, some [⟨"1.0.0", "t", none⟩]⟩)] = .ok doc ∧
        validateAndRepairLog (doc.history.getD []) = .ok hist ∧
        (VersionManager.addCurrentVersion ⟨"p", "l", "r"⟩ "T" (some "n")
          [("p", .jsonFile ⟨some "2.0.0", none⟩),
           ("l", .jsonFile ⟨none, some [⟨"1.0.0", "t", none⟩]⟩)]).2.1
          = FS.write [("p", .jsonFile ⟨some "2.0.0", none⟩),
              ("l", .jsonFile ⟨none, some [⟨"1.0.0", "t", none⟩]⟩)] "l"
              (.jsonFile (writeBackDoc doc (hist ++ [e])))) := by
  refine ⟨?_, ?_, ?_, ?_⟩
  · exact (claim_C8_append_only ⟨"p", "l", "r"⟩ "T" (some "n") .patch
      [("p", .jsonFile ⟨some "1.0.0", none⟩)]).1.2.1
  · exact (claim_C8_append_only ⟨"p", "l", "r"⟩ "T" (some "n") .patch
      [("p", .jsonFile ⟨some "1.0.0", none⟩)]).2.1 (by decide)
  · exact ((claim_C8_append_only ⟨"p", "l", "r"⟩ "T" (some "n") .patch
      [("p", .jsonFile ⟨some "1.0.0", none⟩)]).2.2.1
      [⟨"01.2.3", "t", none⟩] [⟨⟨1, 2, 3⟩, "t", none⟩] (by decide)).2
  · exact (claim_C8_append_only ⟨"p", "l", "r"⟩ "T" (some "n") .patch
      [("p", .jsonFile ⟨some "2.0.0", none⟩),
       ("l", .jsonFile ⟨none, some [⟨"1.0.0", "t", none⟩]⟩)]).2.2.2.2.1
      (VersionManager.addCurrentVersion ⟨"p", "l", "r"⟩ "T" (some "n")
        [("p", .jsonFile ⟨some "2.0.0", none⟩),
         ("l", .jsonFile ⟨none, some [⟨"1.0.0", "t", none⟩]⟩)]).1
      (VersionManager.addCurrentVersion ⟨"p", "l", "r"⟩ "T" (some "n")
        [("p", .jsonFile ⟨some "2.0.0", none⟩),
         ("l", .jsonFile ⟨none, some [⟨"1.0.0", "t", none⟩]⟩)]).2.1
      (VersionManager.addCurrentVersion ⟨"p", "l", "r"⟩ "T" (some "n")
        [("p", .jsonFile ⟨some "2.0.0", none⟩),
         ("l", .jsonFile ⟨none, some [⟨"1.0.0", "t", none⟩]⟩)]).2.2 rfl

end O2M
